import Mathlib

/-!
Verification of the meeting-minutes gateway (TypeScript sources) against its
natural-language specification.  JavaScript strings are modelled as Lean
`String`s (sequences of characters); JavaScript string primitives are
re-defined below on the character list so that proofs can proceed by list
induction and concrete cases by `decide`.  Machine arithmetic in the sources
is plain JavaScript number arithmetic on small integers; it is modelled with
`Nat`/`Int`/`Rat` as appropriate.
-/

/-- Typed application error from `src/utils/errors.ts` (`class AppError`):
an HTTP-style status, a machine-readable code and a message.  The optional
`details` payload is irrelevant to every claim and is omitted. -/
structure AppError where
  status : Nat
  code : String
  message : String
deriving DecidableEq, Repr

/-- JavaScript `String.prototype.startsWith(search)`, modelled on the
character sequence. -/
def jsStartsWith (s search : String) : Bool :=
  search.data.isPrefixOf s.data

/-- JavaScript `String.prototype.endsWith(search)`, modelled on the
character sequence. -/
def jsEndsWith (s search : String) : Bool :=
  search.data.isSuffixOf s.data

/-! ## Scope containment (`src/sharepoint/scope.ts`) -/

/-- Containment predicate from `src/sharepoint/scope.ts` line 25:
`fullPath === prefix || fullPath.startsWith(prefix.endsWith("/") ? prefix : prefix + "/")`.
The first argument is the scope path (called `prefix` in the source; renamed
`pfx` here). -/
def pathStartsWith (pfx fullPath : String) : Bool :=
  fullPath == pfx || jsStartsWith fullPath (if jsEndsWith pfx "/" then pfx else pfx ++ "/")

/-- Containment as the specification phrases it: the item path equals the
scope path, or extends it past a `/` separator. -/
def specContains (pfx fullPath : String) : Prop :=
  fullPath = pfx ∨ jsStartsWith fullPath (pfx ++ "/") = true

instance (pfx fullPath : String) : Decidable (specContains pfx fullPath) := by
  unfold specContains; infer_instance

/-- C1 counterexample: for the scope path `"a/"` (which ends in the
separator) the adversarial item path `"a/" ++ "evil"` — the scope path
immediately followed by non-separator characters — IS considered contained
by `pathStartsWith`, although it neither equals `"a/"` nor starts with
`"a/" ++ "/"`.  This refutes the claim as stated for prefixes that end in
the separator. -/
theorem c1_counterexample :
    pathStartsWith "a/" ("a/" ++ "evil") = true ∧ ¬ specContains "a/" ("a/" ++ "evil") := by
  decide

/-- C1 (amended): for every scope path `q` that does not end in the
separator `"/"` — which is the shape of every canonical folder path the
program computes — `pathStartsWith q p` holds iff `p = q` or `p` starts
with `q ++ "/"`; in particular `q ++ "evil"` is not contained. -/
theorem c1_pathStartsWith_amended (pfx fullPath : String)
    (h : jsEndsWith pfx "/" = false) :
    pathStartsWith pfx fullPath = true ↔ specContains pfx fullPath := by
  unfold pathStartsWith specContains
  rw [h]
  simp [Bool.or_eq_true, beq_iff_eq]

/-- Witness for the C1 amended theorem at the concrete scope path `"a"` and
item paths `"a/b"` and `"aevil"`. -/
theorem c1_witness :
    pathStartsWith "a" "a/b" = true ∧ pathStartsWith "a" "aevil" = false := by
  refine ⟨((c1_pathStartsWith_amended "a" "a/b" (by decide)).mpr (by decide)), ?_⟩
  have h := c1_pathStartsWith_amended "a" "aevil" (by decide)
  revert h
  decide

/-! ## In-memory delivery store (`src/storage/downloadStore.ts`)

The store is a JavaScript `Map` keyed by the entry id; it is modelled as an
insertion-ordered list with unique keys maintained by `storeSet`.  `Buffer`
contents are byte lists.  `Date.now()` is passed in as `now`. -/

def DEFAULT_TTL_MS : Int := 15 * 60 * 1000

def MAX_ENTRIES : Nat := 1000

/-- One stored artifact (`DownloadEntry` in the source). -/
structure DownloadEntry where
  id : String
  fileName : String
  content : List Nat
  mimeType : String
  ownerSub : Option String
  createdAt : Int
  expiresAt : Int
deriving DecidableEq, Repr

/-- The process-wide `store` map, as an insertion-ordered association list. -/
abbrev DownloadStore := List DownloadEntry

/-- `store.get(id)`. -/
def storeGet (st : DownloadStore) (id : String) : Option DownloadEntry :=
  st.find? (fun e => e.id == id)

/-- `store.set(id, entry)`: replace in place when the key exists, append
otherwise (JavaScript `Map` keeps the original position of an updated key). -/
def storeSet (st : DownloadStore) (e : DownloadEntry) : DownloadStore :=
  if st.any (fun x => x.id == e.id) then st.map (fun x => if x.id == e.id then e else x)
  else st ++ [e]

/-- `store.delete(id)`. -/
def storeDelete (st : DownloadStore) (id : String) : DownloadStore :=
  st.filter (fun e => !(e.id == id))

/-- Stable insertion into a list sorted by `createdAt` ascending. -/
def insertByCreatedAt (e : DownloadEntry) : DownloadStore → DownloadStore
  | [] => [e]
  | x :: xs => if e.createdAt < x.createdAt then e :: x :: xs else x :: insertByCreatedAt e xs

/-- `Array.from(store.values()).sort((a, b) => a.createdAt - b.createdAt)`:
a stable sort by creation time. -/
def sortByCreatedAt : DownloadStore → DownloadStore
  | [] => []
  | x :: xs => insertByCreatedAt x (sortByCreatedAt xs)

/-- `cleanup(now)` from `src/storage/downloadStore.ts` lines 18-32: delete
every entry with `expiresAt <= now`, then, if more than `MAX_ENTRIES`
remain, delete the oldest-created excess entries. -/
def cleanup (now : Int) (st : DownloadStore) : DownloadStore :=
  let st1 := st.filter (fun e => decide (now < e.expiresAt))
  if st1.length ≤ MAX_ENTRIES then st1
  else
    let victims := ((sortByCreatedAt st1).take (st1.length - MAX_ENTRIES)).map (·.id)
    st1.filter (fun e => !(victims.contains e.id))

/-- Result of `putDownload`: the fresh id, the expiry instant, and the store
after the call (the source mutates the module-level map; the model passes the
state explicitly, with `newId` standing for the generated `randomUUID()`). -/
structure PutResult where
  id : String
  expiresAt : Int
  store : DownloadStore
deriving Repr

/-- `putDownload` from `src/storage/downloadStore.ts` lines 34-56. -/
def putDownload (now : Int) (newId fileName : String) (content : List Nat)
    (mimeType : String) (ownerSub : Option String) (ttlMs : Option Int)
    (st : DownloadStore) : PutResult :=
  let st1 := cleanup now st
  let ttl := match ttlMs with
    | some t => if 0 < t then t else DEFAULT_TTL_MS
    | none => DEFAULT_TTL_MS
  let entry : DownloadEntry :=
    ⟨newId, fileName, content, mimeType, ownerSub, now, now + ttl⟩
  ⟨newId, now + ttl, storeSet st1 entry⟩

/-- `getDownload` from `src/storage/downloadStore.ts` lines 58-66: a lazy
eviction read returning the entry and the store after the call. -/
def getDownload (now : Int) (id : String) (st : DownloadStore) :
    Option DownloadEntry × DownloadStore :=
  match storeGet st id with
  | none => (none, st)
  | some e => if e.expiresAt ≤ now then (none, storeDelete st id) else (some e, st)

/-- Every member of the cleaned store is unexpired at `now`. -/
theorem mem_cleanup {now : Int} {st : DownloadStore} {x : DownloadEntry}
    (hx : x ∈ cleanup now st) : now < x.expiresAt := by
  unfold cleanup at hx
  by_cases h : (st.filter (fun e => decide (now < e.expiresAt))).length ≤ MAX_ENTRIES
  · simp only [h, if_pos] at hx
    exact of_decide_eq_true (List.mem_filter.mp hx).2
  · simp only [h, if_neg, not_false_iff] at hx
    have := List.mem_filter.mp (List.mem_filter.mp hx).1
    exact of_decide_eq_true this.2

/-- Members of `storeSet st e` are `e` or members of `st`. -/
theorem mem_storeSet {st : DownloadStore} {e x : DownloadEntry}
    (hx : x ∈ storeSet st e) : x = e ∨ x ∈ st := by
  unfold storeSet at hx
  by_cases h : st.any (fun x => x.id == e.id)
  · simp only [h, if_pos] at hx
    obtain ⟨a, ha, hax⟩ := List.mem_map.mp hx
    by_cases hid : a.id == e.id
    · simp only [hid, if_pos] at hax; exact Or.inl hax.symm
    · simp only [hid, if_neg, Bool.false_eq_true, not_false_iff] at hax
      exact Or.inr (hax ▸ ha)
  · simp only [h, if_neg, Bool.false_eq_true, not_false_iff, List.mem_append,
      List.mem_singleton] at hx
    exact hx.symm

/-- Replacing the entry keyed `e.id` in place makes the next lookup of that
key find `e`. -/
theorem find?_map_replace (st : DownloadStore) (e : DownloadEntry)
    (h : st.any (fun x => x.id == e.id) = true) :
    (st.map (fun x => if x.id == e.id then e else x)).find? (fun x => x.id == e.id) = some e := by
  induction st with
  | nil => simp at h
  | cons a as ih =>
    by_cases hid : a.id == e.id
    · simp [hid, List.find?]
    · simp only [List.any_cons, hid, Bool.false_or] at h
      simpa [hid, List.find?] using ih h

/-- Appending a fresh entry makes the next lookup of its key find it. -/
theorem find?_append_new (st : DownloadStore) (e : DownloadEntry)
    (h : st.any (fun x => x.id == e.id) = false) :
    (st ++ [e]).find? (fun x => x.id == e.id) = some e := by
  induction st with
  | nil => simp [List.find?]
  | cons a as ih =>
    simp only [List.any_cons, Bool.or_eq_false_iff] at h
    simpa [List.find?, h.1] using ih h.2

/-- Looking up `e.id` right after `storeSet st e` finds `e`. -/
theorem storeGet_storeSet (st : DownloadStore) (e : DownloadEntry) :
    storeGet (storeSet st e) e.id = some e := by
  unfold storeGet storeSet
  by_cases h : st.any (fun x => x.id == e.id)
  · rw [if_pos h]; exact find?_map_replace st e h
  · rw [if_neg h]; exact find?_append_new st e (by simpa using h)

/-- C8: for the in-memory delivery store, (1) `getDownload` immediately
after `putDownload` returns the stored entry byte-for-byte with the original
file name and MIME type, (2) every `putDownload` first sweeps all
already-expired entries, so its resulting store holds only unexpired
entries, and (3) once the clock has advanced past an entry's `expiresAt`,
`getDownload` returns `none` and removes the entry (lazy-eviction read). -/
theorem c8_downloadStore_ttl
    (st st' : DownloadStore) (now now' : Int) (newId fn mt id' : String)
    (content : List Nat) (owner : Option String) (ttlMs : Option Int)
    (e' : DownloadEntry)
    (hfind : storeGet st' id' = some e') (hexp : e'.expiresAt < now') :
    (getDownload now newId (putDownload now newId fn content mt owner ttlMs st).store).1 =
      some ⟨newId, fn, content, mt, owner, now,
            (putDownload now newId fn content mt owner ttlMs st).expiresAt⟩
    ∧ (∀ x ∈ (putDownload now newId fn content mt owner ttlMs st).store, now < x.expiresAt)
    ∧ (getDownload now' id' st').1 = none
    ∧ (∀ x ∈ (getDownload now' id' st').2, x.id ≠ id') := by
  have httl : ∀ t : Option Int,
      0 < (match t with
           | some t => if 0 < t then t else DEFAULT_TTL_MS
           | none => DEFAULT_TTL_MS) := by
    intro t
    match t with
    | none => decide
    | some t =>
      by_cases h : 0 < t
      · simp [h]
      · simp [h]; decide
  refine ⟨?_, ?_, ?_, ?_⟩
  · show (getDownload now newId (storeSet (cleanup now st) _)).1 = _
    unfold getDownload
    rw [storeGet_storeSet (cleanup now st)
      ⟨newId, fn, content, mt, owner, now, now + _⟩]
    have hlt : ¬ (now + (match ttlMs with
           | some t => if 0 < t then t else DEFAULT_TTL_MS
           | none => DEFAULT_TTL_MS) ≤ now) := by
      have := httl ttlMs
      omega
    simp only [hlt, if_neg, not_false_iff]
    rfl
  · intro x hx
    rcases mem_storeSet hx with h | h
    · subst h
      exact lt_add_of_pos_right now (httl ttlMs)
    · exact mem_cleanup h
  · unfold getDownload
    rw [hfind]
    simp [le_of_lt hexp]
  · intro x hx
    unfold getDownload at hx
    rw [hfind] at hx
    simp only [le_of_lt hexp, if_true, if_pos] at hx
    have := List.mem_filter.mp hx
    simpa using this.2

/-- Closed witness for C8 at a concrete store: a fresh put at time `0` with
default TTL is immediately readable, and reading an entry that expired at
time `5` from the clock position `6` yields `none`. -/
theorem c8_witness :
    (getDownload 0 "d" (putDownload 0 "d" "m.docx" [1, 2, 3] "application/msword"
        none none []).store).1 =
      some ⟨"d", "m.docx", [1, 2, 3], "application/msword", none, 0,
            (putDownload 0 "d" "m.docx" [1, 2, 3] "application/msword" none none []).expiresAt⟩
    ∧ (getDownload 6 "x" [⟨"x", "f", [], "t", none, 0, 5⟩]).1 = none :=
  have h := c8_downloadStore_ttl [] [⟨"x", "f", [], "t", none, 0, 5⟩] 0 6 "d" "m.docx"
    "application/msword" "x" [1, 2, 3] none none ⟨"x", "f", [], "t", none, 0, 5⟩
    (by decide) (by decide)
  ⟨h.1, h.2.2.1⟩

/-! ## The `/download/{id}` HTTP route (`src/config.ts` lines 460-506)

The route handler is modelled for the in-memory storage backend
(`storage.get = getDownload`).  The verified bearer token is reduced to its
`sub` claim (`string | null`), and `decodeURIComponent` of the path segment
is taken as already applied to `id`. -/

/-- The authenticated caller as the route sees it: `auth.sub` is
`string | null` in `VerifiedJwt`. -/
structure AuthInfo where
  sub : Option String
deriving DecidableEq, Repr

/-- Outcome of the route: the HTTP status and, on 200, the served artifact. -/
structure HttpResult where
  status : Nat
  served : Option DownloadEntry
deriving DecidableEq, Repr

/-- JavaScript truthiness of a `string | null | undefined` value: `null`,
`undefined` and `""` are falsy. -/
def jsTruthyStr : Option String → Bool
  | some s => !(s == "")
  | none => false

/-- The ownership test `file.ownerSub && file.ownerSub !== auth.sub` from
`src/config.ts` line 489: truthy owner (non-null, non-empty) and different
from the requester's subject. -/
def ownerMismatch (ownerSub requesterSub : Option String) : Bool :=
  match ownerSub, requesterSub with
  | some o, some s => !(o == "") && !(o == s)
  | some o, none => !(o == "")
  | none, _ => false

/-- The `/download/{id}` branch of the HTTP request handler
(`src/config.ts` lines 460-506), for the in-memory backend. -/
def downloadHandler (requireAuth : Bool) (auth : Option AuthInfo) (method : String)
    (id : String) (now : Int) (st : DownloadStore) : HttpResult × DownloadStore :=
  if !(method == "GET") && !(method == "HEAD") then (⟨405, none⟩, st)
  else if requireAuth && auth.isNone then (⟨401, none⟩, st)
  else
    match getDownload now id st with
    | (none, st') => (⟨404, none⟩, st')
    | (some file, st') =>
      if requireAuth then
        let sub := match auth with
          | some a => a.sub
          | none => none
        if !(jsTruthyStr sub) then (⟨403, none⟩, st')
        else if ownerMismatch file.ownerSub sub then (⟨403, none⟩, st')
        else (⟨200, some file⟩, st')
      else (⟨200, some file⟩, st')

/-- The ownership test fires exactly for a non-null, non-empty owner that
differs from the requester's subject. -/
theorem ownerMismatch_some_iff (ownerSub : Option String) (s : String) :
    ownerMismatch ownerSub (some s) = true ↔ ∃ o, ownerSub = some o ∧ o ≠ "" ∧ o ≠ s := by
  cases ownerSub with
  | none => simp [ownerMismatch]
  | some o => simp [ownerMismatch]

/-- Evaluation of the `/download` route when ownership enforcement is on,
the caller is authenticated with a non-empty subject, and the artifact is
found unexpired: everything reduces to the ownership test. -/
theorem downloadHandler_found (method s id : String) (now : Int) (st : DownloadStore)
    (file : DownloadEntry)
    (hmethod : method = "GET" ∨ method = "HEAD") (hs : s ≠ "")
    (hfound : (getDownload now id st).1 = some file) :
    downloadHandler true (some ⟨some s⟩) method id now st =
      (if ownerMismatch file.ownerSub (some s) then ⟨403, none⟩ else ⟨200, some file⟩,
       (getDownload now id st).2) := by
  have hm : (!(method == "GET") && !(method == "HEAD")) = false := by
    rcases hmethod with h | h <;> simp [h]
  have hp := (@Prod.mk.eta _ _ (getDownload now id st)).symm
  rw [hfound] at hp
  unfold downloadHandler
  rw [hm, hp]
  simp [jsTruthyStr, hs]
  split <;> rfl

/-- C10 counterexample: with ownership enforcement on, an unexpired artifact
recorded with the NON-NULL owner `some ""` is served with 200 to the
authenticated subject `"bob"`, although its owner differs from `"bob"` —
because the source's truthiness test `file.ownerSub && ...` treats the empty
string like `null`.  The claim's "403 ... exactly when the artifact's
ownerSub is non-null and differs from the requester's subject" is therefore
false at this input. -/
theorem c10_counterexample :
    (downloadHandler true (some ⟨some "bob"⟩) "GET" "d1" 0
        [⟨"d1", "f", [7], "t", some "", 0, 10⟩]).1.status = 200
    ∧ (some "" : Option String) ≠ none
    ∧ "" ≠ "bob" := by
  decide

/-- C10 (amended): when `DOWNLOAD_REQUIRE_AUTH` is enabled and the caller is
an authenticated subject with a non-empty `sub`, a found (unexpired)
artifact produces the 403 ownership rejection exactly when its recorded
`ownerSub` is a non-empty string different from the requester's subject;
in particular an artifact with `ownerSub` null or `""` is served with 200
to every such subject. -/
theorem c10_download_ownership_amended
    (method : String) (s id : String) (now : Int) (st : DownloadStore)
    (file : DownloadEntry)
    (hmethod : method = "GET" ∨ method = "HEAD") (hs : s ≠ "")
    (hfound : (getDownload now id st).1 = some file) :
    ((downloadHandler true (some ⟨some s⟩) method id now st).1.status = 403 ↔
      ∃ o, file.ownerSub = some o ∧ o ≠ "" ∧ o ≠ s)
    ∧ ((file.ownerSub = none ∨ file.ownerSub = some "" ∨ file.ownerSub = some s) →
        (downloadHandler true (some ⟨some s⟩) method id now st).1 = ⟨200, some file⟩) := by
  have hEq := downloadHandler_found method s id now st file hmethod hs hfound
  constructor
  · rw [hEq]
    by_cases hmm : ownerMismatch file.ownerSub (some s) = true
    · simp only [hmm, if_true]
      simpa using (ownerMismatch_some_iff file.ownerSub s).mp hmm
    · simp only [Bool.not_eq_true] at hmm
      simp only [hmm, Bool.false_eq_true, if_false]
      refine iff_of_false (by decide) (fun hex => ?_)
      have := (ownerMismatch_some_iff file.ownerSub s).mpr hex
      rw [hmm] at this
      exact Bool.false_ne_true this
  · intro hcase
    rw [hEq]
    have hmm : ownerMismatch file.ownerSub (some s) = false := by
      rcases hcase with h | h | h <;> simp [ownerMismatch, h]
    simp [hmm]

/-- Witness for the amended C10 theorem: a concrete artifact owned by
`"alice"` requested by the authenticated subject `"bob"` is rejected with
403. -/
theorem c10_witness :
    (downloadHandler true (some ⟨some "bob"⟩) "GET" "d1" 0
        [⟨"d1", "f", [7], "t", some "alice", 0, 10⟩]).1.status = 403 :=
  (c10_download_ownership_amended "GET" "bob" "d1" 0
      [⟨"d1", "f", [7], "t", some "alice", 0, 10⟩]
      ⟨"d1", "f", [7], "t", some "alice", 0, 10⟩
      (Or.inl rfl) (by decide) (by decide)).1.mpr
    ⟨"alice", rfl, by decide, by decide⟩

/-! ## Upstream retry policy (`src/graph/retryAfterMiddleware.ts`)

`execute` re-runs the rest of the middleware chain up to `maxRetries` extra
times.  The chain's responses are an oracle `responses : Nat → Option
UpResponse` (attempt index to `context.response`, which may be absent), and
`Math.random()` is an oracle `rand : Nat → Rat` with values in `[0, 1)`.
Delays are exact rationals (JavaScript numbers on these magnitudes). -/

/-- One upstream response as the middleware sees it: the HTTP status and the
`Retry-After` header (already coalesced over the two casings). -/
structure UpResponse where
  status : Nat
  retryAfter : Option String
deriving DecidableEq, Repr

/-- The middleware options (defaults `maxRetries = 5`, `baseDelayMs = 500`,
`maxDelayMs = 30000`). -/
structure RetryOpts where
  maxRetries : Nat
  baseDelayMs : Rat
  maxDelayMs : Rat
deriving DecidableEq, Repr

/-- Whitespace characters recognised by the JavaScript string trimming and
number conversion used here (the common ASCII subset). -/
def isWsChar (c : Char) : Bool :=
  c == ' ' || c == '\t' || c == '\n' || c == '\r'

/-- JavaScript `String.prototype.trim()` (ASCII whitespace). -/
def jsTrim (s : String) : String :=
  ⟨((s.data.dropWhile isWsChar).reverse.dropWhile isWsChar).reverse⟩

/-- Value of a digit string. -/
def digitsVal (cs : List Char) : Nat :=
  cs.foldl (fun acc c => acc * 10 + (c.toNat - '0'.toNat)) 0

/-- Parse an unsigned decimal literal (digits with an optional fractional
part) as an exact rational. -/
def parseDecimal (cs : List Char) : Option Rat :=
  let intPart := cs.takeWhile Char.isDigit
  let rest := cs.dropWhile Char.isDigit
  match rest with
  | [] => if intPart.isEmpty then none else some (digitsVal intPart)
  | '.' :: frac =>
    if frac.all Char.isDigit && !(intPart.isEmpty && frac.isEmpty) then
      some ((digitsVal intPart : Rat) + (digitsVal frac : Rat) / ((10 : Rat) ^ frac.length))
    else none
  | _ => none

/-- JavaScript `Number(string)` restricted to the forms a `Retry-After`
header can take: trimmed decimal numerals with optional sign and fraction;
the empty (or all-whitespace) string converts to `0`.  `none` models `NaN`.
Exponent, hexadecimal and `Infinity` forms are not modelled. -/
def jsNumber (s : String) : Option Rat :=
  match (jsTrim s).data with
  | [] => some 0
  | '-' :: rest => (parseDecimal rest).map (fun q => -q)
  | '+' :: rest => parseDecimal rest
  | t => parseDecimal t

/-- Delay computation from `src/graph/retryAfterMiddleware.ts` lines 43-57:
honor a present, numeric, non-negative `Retry-After` (seconds, converted to
milliseconds and capped at `maxDelayMs`); otherwise exponential backoff
`baseDelayMs * 2^attempt` plus `Math.floor(Math.random() * 250)` jitter,
capped at `maxDelayMs`. -/
def computeDelay (opts : RetryOpts) (attempt : Nat) (hdr : Option String) (rand : Rat) : Rat :=
  let viaHeader : Option Rat :=
    match hdr with
    | some h =>
      if h == "" then none
      else
        match jsNumber h with
        | some seconds =>
          if 0 ≤ seconds then some (min (seconds * 1000) opts.maxDelayMs) else none
        | none => none
    | none => none
  match viaHeader with
  | some d => d
  | none => min (opts.baseDelayMs * 2 ^ attempt + ((Int.floor (rand * 250) : Int) : Rat))
      opts.maxDelayMs

/-- The `for` loop of `execute` (`src/graph/retryAfterMiddleware.ts` lines
30-63), with the fuel counting the remaining loop iterations.  Returns the
number of executed attempts and the list of backoff delays slept. -/
def retryAux (opts : RetryOpts) (responses : Nat → Option UpResponse) (rand : Nat → Rat) :
    Nat → Nat → Nat × List Rat
  | _, 0 => (0, [])
  | attempt, fuel + 1 =>
    match responses attempt with
    | none => (1, [])
    | some res =>
      if res.status ≠ 429 ∧ res.status ≠ 503 then (1, [])
      else if opts.maxRetries ≤ attempt then (1, [])
      else
        let d := computeDelay opts attempt res.retryAfter (rand attempt)
        let r := retryAux opts responses rand (attempt + 1) fuel
        (r.1 + 1, d :: r.2)

/-- `RetryAfterMiddleware.execute`: the loop starting at attempt `0` with
`maxRetries + 1` iterations available. -/
def retryRun (opts : RetryOpts) (responses : Nat → Option UpResponse) (rand : Nat → Rat) :
    Nat × List Rat :=
  retryAux opts responses rand 0 (opts.maxRetries + 1)

/-- Every delay the middleware computes is capped at `maxDelayMs`. -/
theorem computeDelay_le (opts : RetryOpts) (attempt : Nat) (hdr : Option String) (rand : Rat) :
    computeDelay opts attempt hdr rand ≤ opts.maxDelayMs := by
  unfold computeDelay
  cases hdr with
  | none => exact min_le_right _ _
  | some h =>
    by_cases he : h == ""
    · simp only [he, if_pos]
      exact min_le_right _ _
    · simp only [he, Bool.false_eq_true, if_neg, not_false_iff]
      cases hn : jsNumber h with
      | none => exact min_le_right _ _
      | some seconds =>
        by_cases hge : (0 : Rat) ≤ seconds
        · simp only [hge, if_pos]
          exact min_le_right _ _
        · simp only [hge, if_neg, not_false_iff]
          exact min_le_right _ _

/-- Loop invariant for `retryAux`: starting with `fuel + 1` iterations left
and the budget check still ahead (`maxRetries ≤ attempt + fuel`), the loop
executes between `1` and `fuel + 1` attempts, sleeps once per attempt except
the last, and each slept delay is `computeDelay` of a 429/503 response. -/
theorem retryAux_spec (opts : RetryOpts) (responses : Nat → Option UpResponse)
    (rand : Nat → Rat) :
    ∀ (fuel attempt : Nat), opts.maxRetries ≤ attempt + fuel →
      1 ≤ (retryAux opts responses rand attempt (fuel + 1)).1
      ∧ (retryAux opts responses rand attempt (fuel + 1)).1 ≤ fuel + 1
      ∧ (retryAux opts responses rand attempt (fuel + 1)).2.length =
          (retryAux opts responses rand attempt (fuel + 1)).1 - 1
      ∧ (∀ i, i < (retryAux opts responses rand attempt (fuel + 1)).2.length →
          ∃ res, responses (attempt + i) = some res
            ∧ (res.status = 429 ∨ res.status = 503)
            ∧ (retryAux opts responses rand attempt (fuel + 1)).2.get? i =
                some (computeDelay opts (attempt + i) res.retryAfter (rand (attempt + i)))) := by
  intro fuel
  induction fuel with
  | zero =>
    intro attempt hbudget
    simp only [Nat.add_zero] at hbudget
    unfold retryAux
    cases hres : responses attempt with
    | none => exact ⟨by simp, by simp, by simp, by intro i hi; simp at hi⟩
    | some res =>
      by_cases hnr : res.status ≠ 429 ∧ res.status ≠ 503
      · simp only [if_pos hnr]
        exact ⟨by simp, by simp, by simp, by intro i hi; simp at hi⟩
      · simp only [if_neg hnr, if_pos hbudget]
        exact ⟨by simp, by simp, by simp, by intro i hi; simp at hi⟩
  | succ fuel ih =>
    intro attempt hbudget
    unfold retryAux
    cases hres : responses attempt with
    | none => exact ⟨by simp, by simp, by simp, by intro i hi; simp at hi⟩
    | some res =>
      by_cases hnr : res.status ≠ 429 ∧ res.status ≠ 503
      · simp only [if_pos hnr]
        exact ⟨by simp, by simp, by simp, by intro i hi; simp at hi⟩
      · simp only [if_neg hnr]
        by_cases hbud : opts.maxRetries ≤ attempt
        · simp only [if_pos hbud]
          exact ⟨by simp, by simp, by simp, by intro i hi; simp at hi⟩
        · simp only [if_neg hbud]
          have hb2 : opts.maxRetries ≤ (attempt + 1) + fuel := by omega
          obtain ⟨ih1, ih2, ih3, ih4⟩ := ih (attempt + 1) hb2
          push_neg at hnr
          have hretry : res.status = 429 ∨ res.status = 503 := by tauto
          refine ⟨?_, ?_, ?_, ?_⟩
          · simp
          · simp
            omega
          · simp [ih3]
            omega
          · intro i hi
            cases i with
            | zero => exact ⟨res, by simpa using hres, hretry, by simp⟩
            | succ i =>
              have hlen : i < (retryAux opts responses rand (attempt + 1) (fuel + 1)).2.length := by
                simp at hi
                omega
              obtain ⟨res2, hres2, hretry2, hd⟩ := ih4 i hlen
              have harith : attempt + (i + 1) = (attempt + 1) + i := by omega
              refine ⟨res2, by rw [harith]; exact hres2, hretry2, ?_⟩
              rw [harith]
              simpa using hd

/-- C7: the retry middleware returns immediately (one attempt, no backoff)
when the response status is not 429/503; it performs at most `maxRetries`
additional attempts; every backoff delay is at most `maxDelayMs` and belongs
to a 429/503 response; the delay equals the server-specified `Retry-After`
(seconds, converted to ms, capped) when present and a valid non-negative
number, and otherwise `baseDelayMs * 2^attempt` plus bounded non-negative
jitter (strictly below 250 ms), capped at `maxDelayMs`. -/
theorem c7_retry_backoff (opts : RetryOpts) (responses : Nat → Option UpResponse)
    (rand : Nat → Rat) (hrand : ∀ i, 0 ≤ rand i ∧ rand i < 1) :
    ((∀ res, responses 0 = some res → res.status ≠ 429 ∧ res.status ≠ 503) →
        retryRun opts responses rand = (1, []))
    ∧ (retryRun opts responses rand).1 ≤ opts.maxRetries + 1
    ∧ (∀ d ∈ (retryRun opts responses rand).2, d ≤ opts.maxDelayMs)
    ∧ (∀ i, i < (retryRun opts responses rand).2.length →
        ∃ res, responses i = some res ∧ (res.status = 429 ∨ res.status = 503)
          ∧ (retryRun opts responses rand).2.get? i =
              some (computeDelay opts i res.retryAfter (rand i)))
    ∧ (∀ a h seconds, jsNumber h = some seconds → 0 ≤ seconds → h ≠ "" →
        computeDelay opts a (some h) (rand a) = min (seconds * 1000) opts.maxDelayMs)
    ∧ (∀ a, computeDelay opts a none (rand a) =
          min (opts.baseDelayMs * 2 ^ a + ((Int.floor (rand a * 250) : Int) : Rat))
            opts.maxDelayMs
        ∧ 0 ≤ ((Int.floor (rand a * 250) : Int) : Rat)
        ∧ ((Int.floor (rand a * 250) : Int) : Rat) ≤ 249) := by
  have hspec := retryAux_spec opts responses rand opts.maxRetries 0 (by omega)
  obtain ⟨h1, h2, h3, h4⟩ := hspec
  refine ⟨?_, ?_, ?_, ?_, ?_, ?_⟩
  · intro hfirst
    cases hres : responses 0 with
    | none => simp [retryRun, retryAux, hres]
    | some res => simp [retryRun, retryAux, hres, if_pos (hfirst res hres)]
  · exact h2
  · intro d hd
    obtain ⟨i, hget⟩ := List.mem_iff_get?.mp hd
    have hlt : i < (retryRun opts responses rand).2.length :=
      (List.get?_eq_some.mp hget).1
    obtain ⟨res, _, _, hdel⟩ := h4 i hlt
    have : d = computeDelay opts (0 + i) res.retryAfter (rand (0 + i)) := by
      have := hget.symm.trans hdel
      simpa using this
    rw [this]
    exact computeDelay_le opts (0 + i) res.retryAfter (rand (0 + i))
  · intro i hlt
    obtain ⟨res, hres, hretry, hdel⟩ := h4 i hlt
    exact ⟨res, by simpa using hres, hretry, by simpa using hdel⟩
  · intro a h seconds hjs hsec hne
    have hbeq : (h == "") = false := by
      simpa using hne
    simp [computeDelay, hbeq, hjs, hsec]
  · intro a
    obtain ⟨hr0, hr1⟩ := hrand a
    refine ⟨rfl, ?_, ?_⟩
    · have : (0 : Int) ≤ Int.floor (rand a * 250) :=
        Int.floor_nonneg.mpr (by positivity)
      exact_mod_cast this
    · have hlt : rand a * 250 < 250 := by nlinarith
      have : Int.floor (rand a * 250) < 250 := Int.floor_lt.mpr (by exact_mod_cast hlt)
      have h249 : Int.floor (rand a * 250) ≤ 249 := by omega
      exact_mod_cast h249

/-- Witness for C7: a non-retryable 404 short-circuits after one attempt,
and an endless run of 503 responses stops after `maxRetries + 1 = 6`
attempts, with default options and zero jitter randomness. -/
theorem c7_witness :
    retryRun ⟨5, 500, 30000⟩ (fun _ => some ⟨404, none⟩) (fun _ => 0) = (1, [])
    ∧ (retryRun ⟨5, 500, 30000⟩ (fun _ => some ⟨503, none⟩) (fun _ => 0)).1 ≤ 5 + 1 :=
  ⟨(c7_retry_backoff ⟨5, 500, 30000⟩ (fun _ => some ⟨404, none⟩) (fun _ => 0)
      (fun _ => by norm_num)).1
    (fun res hres => by cases hres; decide),
   (c7_retry_backoff ⟨5, 500, 30000⟩ (fun _ => some ⟨503, none⟩) (fun _ => 0)
      (fun _ => by norm_num)).2.1⟩

/-! ## Base64url codec (Node `Buffer` `base64url` encoding)

`encodeCursor`/`decodeCursor` in `src/utils/cursor.ts` go through
`Buffer.from(json, "utf8").toString("base64url")` and back.  Bytes are
naturals below 256.  Node's decoder ignores characters outside the alphabet
and drops a trailing lone sextet; the model mirrors that leniency. -/

/-- Character of a 6-bit group in the url-safe base64 alphabet. -/
def b64Char (n : Nat) : Char :=
  if n < 26 then Char.ofNat ('A'.toNat + n)
  else if n < 52 then Char.ofNat ('a'.toNat + (n - 26))
  else if n < 62 then Char.ofNat ('0'.toNat + (n - 52))
  else if n = 62 then '-'
  else '_'

/-- Value of a url-safe base64 alphabet character (`none` outside the
alphabet; Node ignores such characters while decoding). -/
def b64Val (c : Char) : Option Nat :=
  if 'A' ≤ c ∧ c ≤ 'Z' then some (c.toNat - 'A'.toNat)
  else if 'a' ≤ c ∧ c ≤ 'z' then some (c.toNat - 'a'.toNat + 26)
  else if '0' ≤ c ∧ c ≤ '9' then some (c.toNat - '0'.toNat + 52)
  else if c = '-' then some 62
  else if c = '_' then some 63
  else none

/-- Base64url encoding of a byte list, without padding (Node's `base64url`
emits no `=`). -/
def b64urlEncodeBytes : List Nat → List Char
  | b0 :: b1 :: b2 :: rest =>
    b64Char (b0 / 4) :: b64Char (b0 % 4 * 16 + b1 / 16) ::
      b64Char (b1 % 16 * 4 + b2 / 64) :: b64Char (b2 % 64) :: b64urlEncodeBytes rest
  | [b0, b1] => [b64Char (b0 / 4), b64Char (b0 % 4 * 16 + b1 / 16), b64Char (b1 % 16 * 4)]
  | [b0] => [b64Char (b0 / 4), b64Char (b0 % 4 * 16)]
  | [] => []

/-- Reassemble bytes from the 6-bit groups; a trailing lone group carries no
byte. -/
def b64urlDecodeVals : List Nat → List Nat
  | v0 :: v1 :: v2 :: v3 :: rest =>
    (v0 * 4 + v1 / 16) :: (v1 % 16 * 16 + v2 / 4) :: (v2 % 4 * 64 + v3) ::
      b64urlDecodeVals rest
  | [v0, v1, v2] => [v0 * 4 + v1 / 16, v1 % 16 * 16 + v2 / 4]
  | [v0, v1] => [v0 * 4 + v1 / 16]
  | [_] => []
  | [] => []

/-- `Buffer.from(s, "base64url")` as a byte list. -/
def b64urlDecode (s : String) : List Nat :=
  b64urlDecodeVals (s.data.filterMap b64Val)

/-- `Buffer.from(bytes).toString("base64url")`. -/
def b64urlEncode (bs : List Nat) : String :=
  ⟨b64urlEncodeBytes bs⟩

/-- The alphabet value function inverts the alphabet character function on
6-bit groups. -/
theorem b64Val_b64Char : ∀ v, v < 64 → b64Val (b64Char v) = some v := by
  decide

/-- Decoding inverts encoding on byte lists. -/
theorem b64url_roundtrip : ∀ (bs : List Nat), (∀ b ∈ bs, b < 256) →
    b64urlDecodeVals ((b64urlEncodeBytes bs).filterMap b64Val) = bs := by
  intro bs
  induction bs using b64urlEncodeBytes.induct with
  | case1 b0 b1 b2 rest ih =>
    intro h
    have hb0 : b0 < 256 := h b0 (by simp)
    have hb1 : b1 < 256 := h b1 (by simp)
    have hb2 : b2 < 256 := h b2 (by simp)
    have h1 := b64Val_b64Char (b0 / 4) (by omega)
    have h2 := b64Val_b64Char (b0 % 4 * 16 + b1 / 16) (by omega)
    have h3 := b64Val_b64Char (b1 % 16 * 4 + b2 / 64) (by omega)
    have h4 := b64Val_b64Char (b2 % 64) (by omega)
    have e1 : b0 / 4 * 4 + (b0 % 4 * 16 + b1 / 16) / 16 = b0 := by omega
    have e2 : (b0 % 4 * 16 + b1 / 16) % 16 * 16 + (b1 % 16 * 4 + b2 / 64) / 4 = b1 := by
      omega
    have e3 : (b1 % 16 * 4 + b2 / 64) % 4 * 64 + b2 % 64 = b2 := by omega
    have hrest : ∀ b ∈ rest, b < 256 := fun b hb => h b (by simp [hb])
    simp only [b64urlEncodeBytes, List.filterMap_cons, h1, h2, h3, h4,
      b64urlDecodeVals, e1, e2, e3, ih hrest]
  | case2 b0 b1 =>
    intro h
    have hb0 : b0 < 256 := h b0 (by simp)
    have hb1 : b1 < 256 := h b1 (by simp)
    have h1 := b64Val_b64Char (b0 / 4) (by omega)
    have h2 := b64Val_b64Char (b0 % 4 * 16 + b1 / 16) (by omega)
    have h3 := b64Val_b64Char (b1 % 16 * 4) (by omega)
    have e1 : b0 / 4 * 4 + (b0 % 4 * 16 + b1 / 16) / 16 = b0 := by omega
    have e2 : (b0 % 4 * 16 + b1 / 16) % 16 * 16 + b1 % 16 * 4 / 4 = b1 := by omega
    simp only [b64urlEncodeBytes, List.filterMap_cons, h1, h2, h3,
      List.filterMap_nil, b64urlDecodeVals, e1, e2]
  | case3 b0 =>
    intro h
    have hb0 : b0 < 256 := h b0 (by simp)
    have h1 := b64Val_b64Char (b0 / 4) (by omega)
    have h2 := b64Val_b64Char (b0 % 4 * 16) (by omega)
    have e1 : b0 / 4 * 4 + b0 % 4 * 16 / 16 = b0 := by omega
    simp only [b64urlEncodeBytes, List.filterMap_cons, h1, h2,
      List.filterMap_nil, b64urlDecodeVals, e1]
  | case4 => intro h; rfl

/-! ## UTF-8 (Node `Buffer.from(s, "utf8")` / `buf.toString("utf8")`)

The decoder is lenient like Node's: malformed bytes yield the replacement
character U+FFFD and decoding continues (exact behavior on malformed input —
overlong forms, surrogates — is not load-bearing here; the codec claims only
traverse well-formed encodings). -/

/-- UTF-8 bytes of one character. -/
def utf8EncodeChar (c : Char) : List Nat :=
  let n := c.toNat
  if n < 128 then [n]
  else if n < 2048 then [192 + n / 64, 128 + n % 64]
  else if n < 65536 then [224 + n / 4096, 128 + n / 64 % 64, 128 + n % 64]
  else [240 + n / 262144, 128 + n / 4096 % 64, 128 + n / 64 % 64, 128 + n % 64]

/-- UTF-8 bytes of a character list. -/
def utf8EncodeList : List Char → List Nat
  | [] => []
  | c :: cs => utf8EncodeChar c ++ utf8EncodeList cs

/-- `Buffer.from(s, "utf8")`. -/
def utf8Encode (s : String) : List Nat :=
  utf8EncodeList s.data

/-- A UTF-8 continuation byte. -/
def isCont (b : Nat) : Bool :=
  decide (128 ≤ b) && decide (b < 192)

/-- The replacement character U+FFFD. -/
def replChar : Char :=
  Char.ofNat 65533

/-- Decode one UTF-8 sequence given its first byte and the remaining bytes:
the character (or U+FFFD on malformed input) and the bytes left over. -/
def utf8DecodeOne (b : Nat) (rest : List Nat) : Char × List Nat :=
  if b < 128 then (Char.ofNat b, rest)
  else if 192 ≤ b ∧ b < 224 then
    match rest with
    | b1 :: rest2 =>
      if isCont b1 then (Char.ofNat ((b - 192) * 64 + (b1 - 128)), rest2)
      else (replChar, b1 :: rest2)
    | [] => (replChar, [])
  else if 224 ≤ b ∧ b < 240 then
    match rest with
    | b1 :: b2 :: rest3 =>
      if isCont b1 && isCont b2 then
        (Char.ofNat ((b - 224) * 4096 + (b1 - 128) * 64 + (b2 - 128)), rest3)
      else (replChar, b1 :: b2 :: rest3)
    | other => (replChar, other)
  else if 240 ≤ b ∧ b < 248 then
    match rest with
    | b1 :: b2 :: b3 :: rest4 =>
      if isCont b1 && isCont b2 && isCont b3 then
        (Char.ofNat ((b - 240) * 262144 + (b1 - 128) * 4096 + (b2 - 128) * 64 + (b3 - 128)),
          rest4)
      else (replChar, b1 :: b2 :: b3 :: rest4)
    | other => (replChar, other)
  else (replChar, rest)

/-- Decoding one sequence consumes no more than the remaining bytes. -/
theorem utf8DecodeOne_len (b : Nat) (rest : List Nat) :
    (utf8DecodeOne b rest).2.length ≤ rest.length := by
  unfold utf8DecodeOne
  repeat' split
  all_goals simp_all
  all_goals omega

/-- Lenient UTF-8 decoding of a byte list. -/
def utf8Decode : List Nat → List Char
  | [] => []
  | b :: rest =>
    (utf8DecodeOne b rest).1 :: utf8Decode (utf8DecodeOne b rest).2
  termination_by l => l.length
  decreasing_by
    have := utf8DecodeOne_len b rest
    simp only [List.length_cons]
    omega

/-- Every UTF-8 code unit is a byte. -/
theorem utf8EncodeChar_lt_256 (c : Char) : ∀ b ∈ utf8EncodeChar c, b < 256 := by
  have hvv : c.toNat < 55296 ∨ (57343 < c.toNat ∧ c.toNat < 1114112) := c.valid
  have hv : c.toNat < 1114112 := by omega
  unfold utf8EncodeChar
  by_cases h1 : c.toNat < 128
  · simp only [h1, if_pos]
    intro b hb
    simp at hb
    omega
  · by_cases h2 : c.toNat < 2048
    · simp only [h1, h2, if_neg, not_false_iff, if_pos]
      intro b hb
      simp at hb
      rcases hb with hb | hb <;> omega
    · by_cases h3 : c.toNat < 65536
      · simp only [h1, h2, h3, if_neg, not_false_iff, if_pos]
        intro b hb
        simp at hb
        rcases hb with hb | hb | hb <;> omega
      · simp only [h1, h2, h3, if_neg, not_false_iff]
        intro b hb
        simp at hb
        rcases hb with hb | hb | hb | hb <;> omega

/-- Every byte of an encoded character list is below 256. -/
theorem utf8EncodeList_lt_256 (cs : List Char) : ∀ b ∈ utf8EncodeList cs, b < 256 := by
  induction cs with
  | nil => intro b hb; simp [utf8EncodeList] at hb
  | cons c cs ih =>
    intro b hb
    simp only [utf8EncodeList, List.mem_append] at hb
    rcases hb with hb | hb
    · exact utf8EncodeChar_lt_256 c b hb
    · exact ih b hb

/-- The one-sequence decoder inverts the one-character encoder, leaving the
trailing bytes untouched. -/
theorem utf8DecodeOne_encodeChar (c : Char) (rest : List Nat) :
    ∃ b tail, utf8EncodeChar c ++ rest = b :: tail ∧ utf8DecodeOne b tail = (c, rest) := by
  have hv : c.toNat < 55296 ∨ (57343 < c.toNat ∧ c.toNat < 1114112) := c.valid
  unfold utf8EncodeChar
  by_cases h1 : c.toNat < 128
  · refine ⟨c.toNat, rest, by simp [h1], ?_⟩
    unfold utf8DecodeOne
    simp only [h1, if_pos, Char.ofNat_toNat]
  · by_cases h2 : c.toNat < 2048
    · refine ⟨192 + c.toNat / 64, (128 + c.toNat % 64) :: rest, by simp [h1, h2], ?_⟩
      unfold utf8DecodeOne
      have hb : ¬(192 + c.toNat / 64 < 128) := by omega
      have hr : 192 ≤ 192 + c.toNat / 64 ∧ 192 + c.toNat / 64 < 224 := by omega
      have hc : isCont (128 + c.toNat % 64) = true := by
        unfold isCont
        simp only [Bool.and_eq_true, decide_eq_true_eq]
        omega
      simp only [hb, if_neg, not_false_iff, hr, if_pos, hc, if_true]
      have he : (192 + c.toNat / 64 - 192) * 64 + (128 + c.toNat % 64 - 128) = c.toNat := by
        omega
      rw [he, Char.ofNat_toNat]
      simp
    · by_cases h3 : c.toNat < 65536
      · refine ⟨224 + c.toNat / 4096,
          (128 + c.toNat / 64 % 64) :: (128 + c.toNat % 64) :: rest, by simp [h1, h2, h3], ?_⟩
        unfold utf8DecodeOne
        have hb : ¬(224 + c.toNat / 4096 < 128) := by omega
        have hr2 : ¬(192 ≤ 224 + c.toNat / 4096 ∧ 224 + c.toNat / 4096 < 224) := by omega
        have hr3 : 224 ≤ 224 + c.toNat / 4096 ∧ 224 + c.toNat / 4096 < 240 := by omega
        have hc : (isCont (128 + c.toNat / 64 % 64) && isCont (128 + c.toNat % 64)) = true := by
          unfold isCont
          simp only [Bool.and_eq_true, decide_eq_true_eq]
          omega
        simp only [hb, hr2, hr3, if_neg, not_false_iff, if_pos, hc, if_true]
        have he : (224 + c.toNat / 4096 - 224) * 4096 + (128 + c.toNat / 64 % 64 - 128) * 64 +
            (128 + c.toNat % 64 - 128) = c.toNat := by
          omega
        rw [he, Char.ofNat_toNat]
        simp
      · refine ⟨240 + c.toNat / 262144,
          (128 + c.toNat / 4096 % 64) :: (128 + c.toNat / 64 % 64) ::
            (128 + c.toNat % 64) :: rest, by simp [h1, h2, h3], ?_⟩
        unfold utf8DecodeOne
        have hv4 : c.toNat < 1114112 := by omega
        have hb : ¬(240 + c.toNat / 262144 < 128) := by omega
        have hr2 : ¬(192 ≤ 240 + c.toNat / 262144 ∧ 240 + c.toNat / 262144 < 224) := by omega
        have hr3 : ¬(224 ≤ 240 + c.toNat / 262144 ∧ 240 + c.toNat / 262144 < 240) := by omega
        have hr4 : 240 ≤ 240 + c.toNat / 262144 ∧ 240 + c.toNat / 262144 < 248 := by omega
        have hc : (isCont (128 + c.toNat / 4096 % 64) && isCont (128 + c.toNat / 64 % 64) &&
            isCont (128 + c.toNat % 64)) = true := by
          unfold isCont
          simp only [Bool.and_eq_true, decide_eq_true_eq]
          omega
        simp only [hb, hr2, hr3, hr4, if_neg, not_false_iff, if_pos, hc, if_true]
        have he : (240 + c.toNat / 262144 - 240) * 262144 +
            (128 + c.toNat / 4096 % 64 - 128) * 4096 +
            (128 + c.toNat / 64 % 64 - 128) * 64 + (128 + c.toNat % 64 - 128) = c.toNat := by
          omega
        rw [he, Char.ofNat_toNat]
        simp

/-- Unfolding equation of `utf8Decode` on the empty byte list. -/
theorem utf8Decode_nil : utf8Decode [] = [] := by
  unfold utf8Decode
  rfl

/-- Unfolding equation of `utf8Decode` on a non-empty byte list. -/
theorem utf8Decode_cons (b : Nat) (rest : List Nat) :
    utf8Decode (b :: rest) =
      (utf8DecodeOne b rest).1 :: utf8Decode (utf8DecodeOne b rest).2 := by
  conv_lhs => unfold utf8Decode

/-- Decoding one encoded character off the front of a byte stream returns
that character and continues with the rest. -/
theorem utf8Decode_encodeChar (c : Char) (rest : List Nat) :
    utf8Decode (utf8EncodeChar c ++ rest) = c :: utf8Decode rest := by
  obtain ⟨b, tail, hcons, hone⟩ := utf8DecodeOne_encodeChar c rest
  rw [hcons, utf8Decode_cons, hone]

/-- Decoding inverts encoding on character lists. -/
theorem utf8Decode_encodeList (cs : List Char) :
    utf8Decode (utf8EncodeList cs) = cs := by
  induction cs with
  | nil => simp [utf8EncodeList, utf8Decode_nil]
  | cons c cs ih =>
    show utf8Decode (utf8EncodeChar c ++ utf8EncodeList cs) = c :: cs
    rw [utf8Decode_encodeChar, ih]

/-! ## JSON (`JSON.stringify` / `JSON.parse`)

The JSON values the program serializes and parses.  Numbers are modelled as
integers: the cursor structures only carry integral numbers (`v: 1`, sizes),
and floating-point values are outside the model.  The parser is a fueled
recursive-descent parser for the JSON grammar as V8 accepts it, restricted
to the model's reach: insignificant whitespace, fraction/exponent number
forms and surrogate-pair `\uXXXX` escapes are not modelled. -/

inductive Json where
  | null
  | bool (b : Bool)
  | num (n : Int)
  | str (s : String)
  | arr (elems : List Json)
  | obj (fields : List (String × Json))
deriving BEq, Repr

/-- Decimal digit character. -/
def digitChar (d : Nat) : Char :=
  Char.ofNat (48 + d)

/-- Lowercase hexadecimal digit character (as `JSON.stringify` emits in
`\u00XX` escapes). -/
def hexDigit (d : Nat) : Char :=
  if d < 10 then Char.ofNat (48 + d) else Char.ofNat (97 + (d - 10))

/-- Decimal numeral of a natural number. -/
def natToChars (n : Nat) : List Char :=
  if _hn : n < 10 then [digitChar n]
  else natToChars (n / 10) ++ [digitChar (n % 10)]
  termination_by n
  decreasing_by
    have : 10 ≤ n := Nat.le_of_not_lt _hn
    omega

/-- Decimal numeral of an integer (JavaScript number-to-string for integral
values in the safe range). -/
def intToChars (i : Int) : List Char :=
  if i < 0 then '-' :: natToChars i.natAbs else natToChars i.toNat

/-- `JSON.stringify` escaping of one string character. -/
def escapeChar (c : Char) : List Char :=
  if c = '"' then ['\\', '"']
  else if c = '\\' then ['\\', '\\']
  else if c.toNat = 8 then ['\\', 'b']
  else if c.toNat = 9 then ['\\', 't']
  else if c.toNat = 10 then ['\\', 'n']
  else if c.toNat = 12 then ['\\', 'f']
  else if c.toNat = 13 then ['\\', 'r']
  else if c.toNat < 32 then ['\\', 'u', '0', '0', hexDigit (c.toNat / 16), hexDigit (c.toNat % 16)]
  else [c]

/-- `JSON.stringify` escaping of a character list. -/
def escapeString : List Char → List Char
  | [] => []
  | c :: cs => escapeChar c ++ escapeString cs

/-- `JSON.stringify` of a string value, quotes included. -/
def serializeStr (s : String) : List Char :=
  '"' :: escapeString s.data ++ ['"']

mutual

/-- `JSON.stringify` (no spacing argument, as the sources call it). -/
def jsonStringify : Json → List Char
  | .null => "null".data
  | .bool true => "true".data
  | .bool false => "false".data
  | .num n => intToChars n
  | .str s => serializeStr s
  | .arr [] => ['[', ']']
  | .arr (x :: xs) => '[' :: (jsonStringify x ++ stringifyElemsRest xs) ++ [']']
  | .obj [] => ['\x7b', '\x7d']
  | .obj (kv :: kvs) => '\x7b' :: (stringifyMember kv ++ stringifyMembersRest kvs) ++ ['\x7d']

/-- Remaining array elements, each preceded by a comma. -/
def stringifyElemsRest : List Json → List Char
  | [] => []
  | x :: xs => ',' :: (jsonStringify x ++ stringifyElemsRest xs)

/-- One object member, `"key":value`. -/
def stringifyMember : String × Json → List Char
  | (k, v) => serializeStr k ++ ':' :: jsonStringify v

/-- Remaining object members, each preceded by a comma. -/
def stringifyMembersRest : List (String × Json) → List Char
  | [] => []
  | kv :: kvs => ',' :: (stringifyMember kv ++ stringifyMembersRest kvs)

end

/-- Value of a hexadecimal digit character (both cases accepted, as in
`JSON.parse` `\uXXXX` escapes). -/
def parseHexDigit (c : Char) : Option Nat :=
  if '0' ≤ c ∧ c ≤ '9' then some (c.toNat - 48)
  else if 'a' ≤ c ∧ c ≤ 'f' then some (c.toNat - 97 + 10)
  else if 'A' ≤ c ∧ c ≤ 'F' then some (c.toNat - 65 + 10)
  else none

/-- String-body parser: the characters after the opening quote, up to and
consuming the closing quote.  Fuel bounds the recursion (one unit per
consumed escape group); raw control characters are rejected as in JSON. -/
def parseStringBody : Nat → List Char → Option (List Char × List Char)
  | 0, _ => none
  | fuel + 1, cs =>
    match cs with
    | [] => none
    | c :: rest =>
      if c = '"' then some ([], rest)
      else if c = '\\' then
        match rest with
        | [] => none
        | e :: r =>
          if e = '"' then (parseStringBody fuel r).map (fun p => ('"' :: p.1, p.2))
          else if e = '\\' then (parseStringBody fuel r).map (fun p => ('\\' :: p.1, p.2))
          else if e = '/' then (parseStringBody fuel r).map (fun p => ('/' :: p.1, p.2))
          else if e = 'b' then (parseStringBody fuel r).map (fun p => (Char.ofNat 8 :: p.1, p.2))
          else if e = 'f' then (parseStringBody fuel r).map (fun p => (Char.ofNat 12 :: p.1, p.2))
          else if e = 'n' then (parseStringBody fuel r).map (fun p => (Char.ofNat 10 :: p.1, p.2))
          else if e = 'r' then (parseStringBody fuel r).map (fun p => (Char.ofNat 13 :: p.1, p.2))
          else if e = 't' then (parseStringBody fuel r).map (fun p => (Char.ofNat 9 :: p.1, p.2))
          else if e = 'u' then
            match r with
            | h1 :: h2 :: h3 :: h4 :: r2 =>
              match parseHexDigit h1, parseHexDigit h2, parseHexDigit h3, parseHexDigit h4 with
              | some a, some b, some c2, some d =>
                (parseStringBody fuel r2).map
                  (fun p => (Char.ofNat (a * 4096 + b * 256 + c2 * 16 + d) :: p.1, p.2))
              | _, _, _, _ => none
            | _ => none
          else none
      else if c.toNat < 32 then none
      else (parseStringBody fuel rest).map (fun p => (c :: p.1, p.2))

/-- Parse an unsigned JSON integer numeral; fraction and exponent forms are
outside the model and rejected. -/
def parseNat (cs : List Char) : Option (Nat × List Char) :=
  let digits := cs.takeWhile Char.isDigit
  let rest := cs.dropWhile Char.isDigit
  if digits.isEmpty then none
  else
    match rest with
    | '.' :: _ => none
    | 'e' :: _ => none
    | 'E' :: _ => none
    | _ => some (digitsVal digits, rest)

/-- Parse a JSON integer numeral with optional leading minus. -/
def parseNumber (cs : List Char) : Option (Int × List Char) :=
  match cs with
  | [] => none
  | c :: rest =>
    if c = '-' then (parseNat rest).map (fun p => (-(p.1 : Int), p.2))
    else (parseNat (c :: rest)).map (fun p => ((p.1 : Int), p.2))

mutual

/-- Fueled recursive-descent parser for a JSON value. -/
def parseValue : Nat → List Char → Option (Json × List Char)
  | 0, _ => none
  | fuel + 1, cs =>
    match cs with
    | [] => none
    | c :: rest =>
      if c = 'n' then
        match rest with
        | 'u' :: 'l' :: 'l' :: r => some (.null, r)
        | _ => none
      else if c = 't' then
        match rest with
        | 'r' :: 'u' :: 'e' :: r => some (.bool true, r)
        | _ => none
      else if c = 'f' then
        match rest with
        | 'a' :: 'l' :: 's' :: 'e' :: r => some (.bool false, r)
        | _ => none
      else if c = '"' then
        (parseStringBody (rest.length + 1) rest).map (fun p => (.str ⟨p.1⟩, p.2))
      else if c = '[' then
        match rest with
        | ']' :: r2 => some (.arr [], r2)
        | _ => (parseElems fuel rest).map (fun p => (.arr p.1, p.2))
      else if c = '\x7b' then
        match rest with
        | '\x7d' :: r2 => some (.obj [], r2)
        | _ => (parseMembers fuel rest).map (fun p => (.obj p.1, p.2))
      else
        (parseNumber (c :: rest)).map (fun p => (.num p.1, p.2))

/-- Parse one or more array elements followed by the closing bracket. -/
def parseElems : Nat → List Char → Option (List Json × List Char)
  | 0, _ => none
  | fuel + 1, cs =>
    (parseValue fuel cs).bind (fun p =>
      match p.2 with
      | ',' :: rest2 => (parseElems fuel rest2).map (fun q => (p.1 :: q.1, q.2))
      | ']' :: rest2 => some ([p.1], rest2)
      | _ => none)

/-- Parse one or more object members followed by the closing brace. -/
def parseMembers : Nat → List Char → Option (List (String × Json) × List Char)
  | 0, _ => none
  | fuel + 1, cs =>
    match cs with
    | '"' :: rest =>
      (parseStringBody (rest.length + 1) rest).bind (fun k =>
        match k.2 with
        | ':' :: rest2 =>
          (parseValue fuel rest2).bind (fun v =>
            match v.2 with
            | ',' :: rest3 =>
              (parseMembers fuel rest3).map (fun q => ((⟨k.1⟩, v.1) :: q.1, q.2))
            | '\x7d' :: rest3 => some ([(⟨k.1⟩, v.1)], rest3)
            | _ => none)
        | _ => none)
    | _ => none

end

/-- `JSON.parse` on a character list: a full value with nothing left over. -/
def jsonParseChars (cs : List Char) : Option Json :=
  match parseValue (cs.length + 1) cs with
  | some (v, []) => some v
  | _ => none

/-- `JSON.parse` on a string. -/
def jsonParse (s : String) : Option Json :=
  jsonParseChars s.data

/-- `Char.isDigit` characterised on code points. -/
theorem isDigit_iff (c : Char) : c.isDigit = true ↔ 48 ≤ c.toNat ∧ c.toNat ≤ 57 := by
  unfold Char.isDigit
  simp [UInt32.le_def, BitVec.le_def, Char.toNat, UInt32.toNat]

/-- `Char.ofNat` on a valid (below-surrogate) code point keeps the value. -/
theorem charToNat_ofNat_valid {n : Nat} (h : n < 55296) : (Char.ofNat n).toNat = n := by
  rw [Char.ofNat, dif_pos (Or.inl h : Nat.isValidChar n)]
  rfl

/-- Code point of a decimal digit character. -/
theorem digitChar_toNat (d : Nat) (h : d < 10) : (digitChar d).toNat = 48 + d := by
  unfold digitChar
  exact charToNat_ofNat_valid (by omega)

/-- Decimal digit characters are digits. -/
theorem digitChar_isDigit (d : Nat) (h : d < 10) : (digitChar d).isDigit = true := by
  rw [isDigit_iff, digitChar_toNat d h]
  omega

/-- A decimal numeral is non-empty and consists of digits. -/
theorem natToChars_spec (n : Nat) :
    natToChars n ≠ [] ∧ ∀ c ∈ natToChars n, c.isDigit = true := by
  induction n using natToChars.induct with
  | case1 n h =>
    rw [natToChars, dif_pos h]
    exact ⟨by simp, by intro c hc; simp at hc; subst hc; exact digitChar_isDigit n h⟩
  | case2 n h ih =>
    rw [natToChars, dif_neg h]
    refine ⟨by simp, ?_⟩
    intro c hc
    simp only [List.mem_append, List.mem_singleton] at hc
    rcases hc with hc | hc
    · exact ih.2 c hc
    · subst hc
      exact digitChar_isDigit _ (by omega)

/-- Appending one digit multiplies the numeral value by ten. -/
theorem digitsVal_append (l : List Char) (d : Char) :
    digitsVal (l ++ [d]) = digitsVal l * 10 + (d.toNat - 48) := by
  simp [digitsVal, List.foldl_append]

/-- The numeral of `n` evaluates back to `n`. -/
theorem digitsVal_natToChars (n : Nat) : digitsVal (natToChars n) = n := by
  induction n using natToChars.induct with
  | case1 n h =>
    rw [natToChars, dif_pos h]
    simp [digitsVal, digitChar_toNat n h]
  | case2 n h ih =>
    rw [natToChars, dif_neg h, digitsVal_append, ih, digitChar_toNat _ (by omega)]
    omega

/-- `takeWhile`/`dropWhile` split an all-satisfying block from a
non-satisfying continuation. -/
theorem takeWhile_append_of_all {p : Char → Bool} :
    ∀ (l rest : List Char), (∀ c ∈ l, p c = true) →
      (∀ c, rest.head? = some c → p c = false) →
      (l ++ rest).takeWhile p = l ∧ (l ++ rest).dropWhile p = rest := by
  intro l
  induction l with
  | nil =>
    intro rest _ hrest
    cases rest with
    | nil => simp
    | cons c cs =>
      have := hrest c (by simp)
      simp [List.takeWhile, List.dropWhile, this]
  | cons d l ih =>
    intro rest hall hrest
    have hd : p d = true := hall d (by simp)
    have ihr := ih rest (fun c hc => hall c (by simp [hc])) hrest
    simp [List.takeWhile, List.dropWhile, hd, ihr.1, ihr.2]

/-- What may legally follow a serialized number so that the numeral parser
stops exactly at the boundary: end of input, or a character that is neither
a digit nor a fraction/exponent opener.  Every continuation the serializer
produces (`,`, `]`, `}` or nothing) satisfies this. -/
def numGuard (rest : List Char) : Prop :=
  ∀ c, rest.head? = some c → c.isDigit = false ∧ c ≠ '.' ∧ c ≠ 'e' ∧ c ≠ 'E'

/-- The numeral parser inverts the numeral serializer up to the guard. -/
theorem parseNat_natToChars (n : Nat) (rest : List Char) (hg : numGuard rest) :
    parseNat (natToChars n ++ rest) = some (n, rest) := by
  obtain ⟨hne, hall⟩ := natToChars_spec n
  obtain ⟨htake, hdrop⟩ :=
    takeWhile_append_of_all (natToChars n) rest hall (fun c hc => (hg c hc).1)
  unfold parseNat
  simp only [htake, hdrop]
  rw [if_neg (by simpa [List.isEmpty_iff] using hne)]
  cases hrest : rest with
  | nil => simp [digitsVal_natToChars]
  | cons c cs =>
    obtain ⟨_, h2, h3, h4⟩ := hg c (by simp [hrest])
    simp [h2, h3, h4, digitsVal_natToChars]

/-- The decimal numeral of an integer starts with a minus sign or a digit. -/
theorem intToChars_head (i : Int) :
    ∃ c r, intToChars i = c :: r ∧ (c = '-' ∨ c.isDigit = true) := by
  unfold intToChars
  by_cases hi : i < 0
  · exact ⟨'-', natToChars i.natAbs, by simp [hi], Or.inl rfl⟩
  · obtain ⟨hne, hall⟩ := natToChars_spec i.toNat
    obtain ⟨c, r, hcr⟩ := List.exists_cons_of_ne_nil hne
    exact ⟨c, r, by simp [hi, hcr], Or.inr (hall c (by simp [hcr]))⟩

/-- The number parser inverts the integer serializer up to the guard. -/
theorem parseNumber_intToChars (i : Int) (rest : List Char) (hg : numGuard rest) :
    parseNumber (intToChars i ++ rest) = some (i, rest) := by
  unfold intToChars
  by_cases hi : i < 0
  · simp only [hi, if_pos, List.cons_append]
    simp only [parseNumber, if_true]
    rw [parseNat_natToChars i.natAbs rest hg]
    simp only [Option.map_some', Option.some.injEq, Prod.mk.injEq]
    exact ⟨by omega, trivial⟩
  · rw [if_neg hi]
    obtain ⟨hne, hall⟩ := natToChars_spec i.toNat
    obtain ⟨c, r, hcr⟩ := List.exists_cons_of_ne_nil hne
    have hcd : c.isDigit = true := hall c (by simp [hcr])
    have hcm : ¬(c = '-') := fun heq => by
      rw [heq] at hcd
      exact absurd hcd (by decide)
    rw [hcr, List.cons_append]
    simp only [parseNumber]
    rw [if_neg hcm, ← List.cons_append, ← hcr, parseNat_natToChars i.toNat rest hg]
    simp only [Option.map_some', Option.some.injEq, Prod.mk.injEq]
    exact ⟨by omega, trivial⟩

/-- Hexadecimal digit parsing inverts the digit emitter. -/
theorem parseHexDigit_hexDigit : ∀ d, d < 16 → parseHexDigit (hexDigit d) = some d := by
  decide

/-- The string-body parser inverts `JSON.stringify` string escaping: with
enough fuel, parsing the escaped characters followed by a closing quote
returns the original characters and the trailing input. -/
theorem parseStringBody_escape (cs : List Char) (rest : List Char) :
    ∀ fuel, (escapeString cs).length < fuel →
      parseStringBody fuel (escapeString cs ++ '"' :: rest) = some (cs, rest) := by
  induction cs with
  | nil =>
    intro fuel hf
    obtain ⟨f, rfl⟩ : ∃ f, fuel = f + 1 := ⟨fuel - 1, by omega⟩
    simp [escapeString, parseStringBody]
  | cons c cs ih =>
    intro fuel hf
    have hlen1 : 1 ≤ (escapeChar c).length := by
      unfold escapeChar
      repeat' split
      all_goals simp
    rw [show escapeString (c :: cs) = escapeChar c ++ escapeString cs from rfl] at hf ⊢
    simp only [List.length_append] at hf
    obtain ⟨f, rfl⟩ : ∃ f, fuel = f + 1 := ⟨fuel - 1, by omega⟩
    have hih := ih f (by omega)
    by_cases h1 : c = '"'
    · unfold escapeChar
      rw [if_pos h1]
      simp only [List.cons_append, List.nil_append, parseStringBody]
      simp [hih, h1]
    · by_cases h2 : c = '\\'
      · unfold escapeChar
        rw [if_neg h1, if_pos h2]
        simp only [List.cons_append, List.nil_append, parseStringBody]
        simp [hih, h2]
      · by_cases h3 : c.toNat = 8
        · unfold escapeChar
          rw [if_neg h1, if_neg h2, if_pos h3]
          simp only [List.cons_append, List.nil_append, parseStringBody]
          simp [hih]
          rw [show (8 : Nat) = c.toNat from h3.symm, Char.ofNat_toNat]
        · by_cases h4 : c.toNat = 9
          · unfold escapeChar
            rw [if_neg h1, if_neg h2, if_neg h3, if_pos h4]
            simp only [List.cons_append, List.nil_append, parseStringBody]
            simp [hih]
            rw [show (9 : Nat) = c.toNat from h4.symm, Char.ofNat_toNat]
          · by_cases h5 : c.toNat = 10
            · unfold escapeChar
              rw [if_neg h1, if_neg h2, if_neg h3, if_neg h4, if_pos h5]
              simp only [List.cons_append, List.nil_append, parseStringBody]
              simp [hih]
              rw [show (10 : Nat) = c.toNat from h5.symm, Char.ofNat_toNat]
            · by_cases h6 : c.toNat = 12
              · unfold escapeChar
                rw [if_neg h1, if_neg h2, if_neg h3, if_neg h4, if_neg h5, if_pos h6]
                simp only [List.cons_append, List.nil_append, parseStringBody]
                simp [hih]
                rw [show (12 : Nat) = c.toNat from h6.symm, Char.ofNat_toNat]
              · by_cases h7 : c.toNat = 13
                · unfold escapeChar
                  rw [if_neg h1, if_neg h2, if_neg h3, if_neg h4, if_neg h5, if_neg h6,
                    if_pos h7]
                  simp only [List.cons_append, List.nil_append, parseStringBody]
                  simp [hih]
                  rw [show (13 : Nat) = c.toNat from h7.symm, Char.ofNat_toNat]
                · by_cases h8 : c.toNat < 32
                  · unfold escapeChar
                    rw [if_neg h1, if_neg h2, if_neg h3, if_neg h4, if_neg h5, if_neg h6,
                      if_neg h7, if_pos h8]
                    simp only [List.cons_append, List.nil_append, parseStringBody]
                    have hx0 : parseHexDigit '0' = some 0 := by decide
                    have hx1 : parseHexDigit (hexDigit (c.toNat / 16)) = some (c.toNat / 16) :=
                      parseHexDigit_hexDigit _ (by omega)
                    have hx2 : parseHexDigit (hexDigit (c.toNat % 16)) = some (c.toNat % 16) :=
                      parseHexDigit_hexDigit _ (by omega)
                    simp [hx0, hx1, hx2, hih]
                    rw [show c.toNat / 16 * 16 + c.toNat % 16 = c.toNat from by omega,
                      Char.ofNat_toNat]
                  · unfold escapeChar
                    rw [if_neg h1, if_neg h2, if_neg h3, if_neg h4, if_neg h5, if_neg h6,
                      if_neg h7, if_neg h8]
                    simp only [List.cons_append, List.nil_append, parseStringBody]
                    simp [h1, h2, h8, hih]

/-- Every serialized JSON value starts with a character that is neither a
closing bracket nor a closing brace (used to steer the parser's lookahead). -/
theorem jsonStringify_head (j : Json) :
    ∃ c r, jsonStringify j = c :: r ∧ c ≠ ']' ∧ c ≠ '\x7d' := by
  cases j with
  | null => exact ⟨'n', _, rfl, by decide, by decide⟩
  | bool b =>
    cases b with
    | true => exact ⟨'t', _, rfl, by decide, by decide⟩
    | false => exact ⟨'f', _, rfl, by decide, by decide⟩
  | num n =>
    obtain ⟨c, r, hcr, hc⟩ := intToChars_head n
    have hc' : c.toNat = 45 ∨ (48 ≤ c.toNat ∧ c.toNat ≤ 57) := by
      rcases hc with h | h
      · rw [h]; left; rfl
      · right; exact (isDigit_iff c).mp h
    refine ⟨c, r, hcr, ?_, ?_⟩
    · intro heq; rw [heq] at hc'; revert hc'; decide
    · intro heq; rw [heq] at hc'; revert hc'; decide
  | str s => exact ⟨'"', _, rfl, by decide, by decide⟩
  | arr elems =>
    cases elems with
    | nil => exact ⟨'[', _, rfl, by decide, by decide⟩
    | cons x xs => exact ⟨'[', _, rfl, by decide, by decide⟩
  | obj fields =>
    cases fields with
    | nil => exact ⟨'\x7b', _, rfl, by decide, by decide⟩
    | cons kv kvs => exact ⟨'\x7b', _, rfl, by decide, by decide⟩

/-- Serialized JSON values are non-empty. -/
theorem jsonStringify_length_pos (j : Json) : 1 ≤ (jsonStringify j).length := by
  obtain ⟨c, r, hcr, _, _⟩ := jsonStringify_head j
  simp [hcr]

/-- The elements-continuation serialization of a list. -/
theorem stringifyElemsRest_cons (y : Json) (ys : List Json) :
    stringifyElemsRest (y :: ys) = ',' :: (jsonStringify y ++ stringifyElemsRest ys) := rfl

/-- One serialized member is non-empty. -/
theorem stringifyMember_length_pos (kv : String × Json) :
    1 ≤ (stringifyMember kv).length := by
  obtain ⟨k, v⟩ := kv
  simp [stringifyMember, serializeStr]


/-- Evaluation of the value parser on a quoted string head. -/
theorem parseValue_succ_quote (f : Nat) (tail : List Char) :
    parseValue (f + 1) ('"' :: tail) =
      (parseStringBody (tail.length + 1) tail).map (fun p => (Json.str ⟨p.1⟩, p.2)) := by
  simp [parseValue]

/-- Evaluation of the value parser on a non-empty array head. -/
theorem parseValue_succ_bracket (f : Nat) (c : Char) (T : List Char) (hc : c ≠ ']') :
    parseValue (f + 1) ('[' :: (c :: T)) =
      (parseElems f (c :: T)).map (fun p => (Json.arr p.1, p.2)) := by
  simp [parseValue, hc]

/-- Evaluation of the value parser on a non-empty object head. -/
theorem parseValue_succ_brace (f : Nat) (c : Char) (T : List Char) (hc : c ≠ '\x7d') :
    parseValue (f + 1) ('\x7b' :: (c :: T)) =
      (parseMembers f (c :: T)).map (fun p => (Json.obj p.1, p.2)) := by
  simp [parseValue, hc]

/-- Evaluation of the value parser on a number head (not an opener of any
other construct). -/
theorem parseValue_succ_number (f : Nat) (c : Char) (T : List Char)
    (h1 : ¬(c = 'n')) (h2 : ¬(c = 't')) (h3 : ¬(c = 'f')) (h4 : ¬(c = '"'))
    (h5 : ¬(c = '[')) (h6 : ¬(c = '\x7b')) :
    parseValue (f + 1) (c :: T) =
      (parseNumber (c :: T)).map (fun p => (Json.num p.1, p.2)) := by
  simp [parseValue, h1, h2, h3, h4, h5, h6]

/-- The second component of a pair is smaller than the pair (termination
measure arithmetic for the mutual roundtrip proof). -/
theorem sizeOf_snd_lt (kv : String × Json) : sizeOf kv.2 < sizeOf kv := by
  obtain ⟨k, v⟩ := kv
  simp_arith

/-- A serialized object member starts with the key's opening quote. -/
theorem stringifyMember_head (kv : String × Json) :
    ∃ r, stringifyMember kv = '"' :: r := by
  obtain ⟨k, v⟩ := kv
  exact ⟨(escapeString k.data ++ ['"']) ++ ':' :: jsonStringify v, by
    show serializeStr k ++ ':' :: jsonStringify v = _
    rw [serializeStr]
    simp [List.cons_append, List.append_assoc]⟩

mutual

/-- The fueled JSON parser inverts `JSON.stringify`: with enough fuel,
parsing a serialized value followed by a legal continuation returns the
value and the continuation. -/
theorem parseValue_stringify (j : Json) (rest : List Char) (fuel : Nat)
    (hf : (jsonStringify j).length < fuel) (hrest : numGuard rest) :
    parseValue fuel (jsonStringify j ++ rest) = some (j, rest) := by
  obtain ⟨f, rfl⟩ : ∃ f, fuel = f + 1 := ⟨fuel - 1, by omega⟩
  cases j with
  | null => simp [jsonStringify, parseValue]
  | bool b => cases b <;> simp [jsonStringify, parseValue]
  | num n =>
    obtain ⟨c, r, hcr, hc⟩ := intToChars_head n
    have hcv : c.toNat = 45 ∨ (48 ≤ c.toNat ∧ c.toNat ≤ 57) := by
      rcases hc with h | h
      · rw [h]; left; rfl
      · right; exact (isDigit_iff c).mp h
    have hn1 : ¬(c = 'n') := by intro heq; rw [heq] at hcv; revert hcv; decide
    have hn2 : ¬(c = 't') := by intro heq; rw [heq] at hcv; revert hcv; decide
    have hn3 : ¬(c = 'f') := by intro heq; rw [heq] at hcv; revert hcv; decide
    have hn4 : ¬(c = '"') := by intro heq; rw [heq] at hcv; revert hcv; decide
    have hn5 : ¬(c = '[') := by intro heq; rw [heq] at hcv; revert hcv; decide
    have hn6 : ¬(c = '\x7b') := by intro heq; rw [heq] at hcv; revert hcv; decide
    show parseValue (f + 1) (intToChars n ++ rest) = some (.num n, rest)
    rw [hcr, List.cons_append,
      parseValue_succ_number f c (r ++ rest) hn1 hn2 hn3 hn4 hn5 hn6,
      ← List.cons_append, ← hcr, parseNumber_intToChars n rest hrest]
    rfl
  | str s =>
    show parseValue (f + 1) (serializeStr s ++ rest) = some (.str s, rest)
    rw [serializeStr]
    simp only [List.cons_append, List.append_assoc, List.singleton_append, List.nil_append]
    rw [parseValue_succ_quote, parseStringBody_escape s.data rest _ (by simp; omega)]
    rfl
  | arr elems =>
    cases elems with
    | nil => simp [jsonStringify, parseValue]
    | cons x xs =>
      obtain ⟨c, r, hcr, hc1, hc2⟩ := jsonStringify_head x
      have hlx := jsonStringify_length_pos x
      have hflen : (jsonStringify (Json.arr (x :: xs))).length =
          (jsonStringify x ++ stringifyElemsRest xs).length + 2 := by
        show ('[' :: (jsonStringify x ++ stringifyElemsRest xs ++ [']'])).length = _
        simp
        omega
      show parseValue (f + 1)
        (('[' :: (jsonStringify x ++ stringifyElemsRest xs ++ [']'])) ++ rest) =
        some (.arr (x :: xs), rest)
      simp only [List.cons_append, List.append_assoc, List.singleton_append, List.nil_append]
      rw [show jsonStringify x ++ (stringifyElemsRest xs ++ ']' :: rest) =
          c :: (r ++ (stringifyElemsRest xs ++ ']' :: rest)) from by
        rw [hcr, List.cons_append]]
      rw [parseValue_succ_bracket f c _ hc1,
        ← List.cons_append, ← hcr, ← List.append_assoc,
        parseElems_stringify x xs rest f (by rw [hflen] at hf; omega)]
      rfl
  | obj fields =>
    cases fields with
    | nil => simp [jsonStringify, parseValue]
    | cons kv kvs =>
      obtain ⟨rk, hrk⟩ := stringifyMember_head kv
      have hflen : (jsonStringify (Json.obj (kv :: kvs))).length =
          (stringifyMember kv ++ stringifyMembersRest kvs).length + 2 := by
        show ('\x7b' :: (stringifyMember kv ++ stringifyMembersRest kvs ++
          ['\x7d'])).length = _
        simp
        omega
      have hmk2 : stringifyMember kv ++ (stringifyMembersRest kvs ++ '\x7d' :: rest) =
          '"' :: (rk ++ (stringifyMembersRest kvs ++ '\x7d' :: rest)) := by
        rw [hrk, List.cons_append]
      show parseValue (f + 1)
        (('\x7b' :: (stringifyMember kv ++ stringifyMembersRest kvs ++ ['\x7d'])) ++ rest) =
        some (.obj (kv :: kvs), rest)
      simp only [List.cons_append, List.append_assoc, List.singleton_append, List.nil_append]
      rw [hmk2, parseValue_succ_brace f '"' _ (by decide), ← hmk2, ← List.append_assoc,
        parseMembers_stringify kv kvs rest f (by rw [hflen] at hf; omega)]
      rfl
termination_by sizeOf j
decreasing_by all_goals (subst_vars; simp_arith)

/-- The elements parser inverts the serializer for non-empty element lists
followed by the closing bracket. -/
theorem parseElems_stringify (x : Json) (xs : List Json) (rest : List Char) (fuel : Nat)
    (hf : (jsonStringify x ++ stringifyElemsRest xs).length + 1 < fuel) :
    parseElems fuel ((jsonStringify x ++ stringifyElemsRest xs) ++ ']' :: rest) =
      some (x :: xs, rest) := by
  obtain ⟨f, rfl⟩ : ∃ f, fuel = f + 1 := ⟨fuel - 1, by omega⟩
  have hlx := jsonStringify_length_pos x
  simp only [List.length_append] at hf
  have hg : numGuard (stringifyElemsRest xs ++ ']' :: rest) := by
    cases xs with
    | nil => intro c hc; simp [stringifyElemsRest] at hc; subst hc; refine ⟨by decide, by decide, by decide, by decide⟩
    | cons y ys => intro c hc; simp [stringifyElemsRest_cons] at hc; subst hc; refine ⟨by decide, by decide, by decide, by decide⟩
  simp only [parseElems, List.append_assoc]
  rw [parseValue_stringify x (stringifyElemsRest xs ++ ']' :: rest) f (by omega) hg]
  cases xs with
  | nil => simp [stringifyElemsRest]
  | cons y ys =>
    have hly := jsonStringify_length_pos y
    rw [stringifyElemsRest_cons]
    simp only [List.cons_append, Option.some_bind]
    show (parseElems f ((jsonStringify y ++ stringifyElemsRest ys) ++ ']' :: rest)).map
        (fun q => (x :: q.1, q.2)) = some (x :: y :: ys, rest)
    rw [parseElems_stringify y ys rest f (by
      simp only [stringifyElemsRest_cons, List.length_cons, List.length_append] at hf ⊢
      omega)]
    rfl
termination_by sizeOf x + sizeOf xs + 1
decreasing_by all_goals (subst_vars; simp_arith)

/-- The members parser inverts the serializer for non-empty member lists
followed by the closing brace. -/
theorem parseMembers_stringify (kv : String × Json) (kvs : List (String × Json))
    (rest : List Char) (fuel : Nat)
    (hf : (stringifyMember kv ++ stringifyMembersRest kvs).length + 1 < fuel) :
    parseMembers fuel ((stringifyMember kv ++ stringifyMembersRest kvs) ++ '\x7d' :: rest) =
      some (kv :: kvs, rest) := by
  obtain ⟨f, rfl⟩ : ∃ f, fuel = f + 1 := ⟨fuel - 1, by omega⟩
  have hlv := jsonStringify_length_pos kv.2
  have hmk : stringifyMember kv = ('"' :: (escapeString (kv.1).data ++ ['"'])) ++
      ':' :: jsonStringify kv.2 := by
    obtain ⟨k, v⟩ := kv
    show serializeStr k ++ ':' :: jsonStringify v = _
    rw [serializeStr]
    simp [List.cons_append, List.append_assoc]
  have hg : numGuard (stringifyMembersRest kvs ++ '\x7d' :: rest) := by
    cases kvs with
    | nil =>
      intro c hc
      simp [stringifyMembersRest] at hc
      subst hc
      refine ⟨by decide, by decide, by decide, by decide⟩
    | cons kv2 kvs2 =>
      intro c hc
      simp [stringifyMembersRest] at hc
      subst hc
      refine ⟨by decide, by decide, by decide, by decide⟩
  rw [hmk]
  simp only [List.cons_append, List.append_assoc, List.singleton_append, List.nil_append]
  simp only [parseMembers]
  rw [parseStringBody_escape (kv.1).data
    (':' :: (jsonStringify kv.2 ++ (stringifyMembersRest kvs ++ '\x7d' :: rest))) _ (by
      simp; omega)]
  simp only [Option.some_bind]
  show (parseValue f (jsonStringify kv.2 ++ (stringifyMembersRest kvs ++ '\x7d' :: rest))).bind _ =
    some (kv :: kvs, rest)
  rw [parseValue_stringify kv.2 (stringifyMembersRest kvs ++ '\x7d' :: rest) f (by
    rw [hmk] at hf
    simp only [List.length_append, List.cons_append, List.length_cons] at hf
    omega) hg]
  cases kvs with
  | nil => simp [stringifyMembersRest]
  | cons kv2 kvs2 =>
    have hlm2 := stringifyMember_length_pos kv2
    show (some ((kv.2 : Json), stringifyMembersRest (kv2 :: kvs2) ++ '\x7d' :: rest)).bind _ =
      some (kv :: kv2 :: kvs2, rest)
    rw [show stringifyMembersRest (kv2 :: kvs2) =
      ',' :: (stringifyMember kv2 ++ stringifyMembersRest kvs2) from rfl]
    simp only [List.cons_append, Option.some_bind]
    show (parseMembers f ((stringifyMember kv2 ++ stringifyMembersRest kvs2) ++
        '\x7d' :: rest)).map (fun q => (((⟨(kv.1).data⟩ : String), kv.2) :: q.1, q.2)) =
      some (kv :: kv2 :: kvs2, rest)
    rw [parseMembers_stringify kv2 kvs2 rest f (by
      rw [hmk] at hf
      simp only [List.length_append, List.cons_append, List.length_cons,
        show stringifyMembersRest ((kv2 :: kvs2)) =
          ',' :: (stringifyMember kv2 ++ stringifyMembersRest kvs2) from rfl] at hf
      simp only [List.length_append] at hf ⊢
      omega)]
    rfl
termination_by sizeOf kv + sizeOf kvs + 1
decreasing_by
  all_goals subst_vars
  all_goals try simp_arith
  all_goals (rename String × Json => p
             have hp := sizeOf_snd_lt p
             omega)

end


/-- `JSON.parse` inverts `JSON.stringify` (character-list level). -/
theorem jsonParseChars_stringify (j : Json) :
    jsonParseChars (jsonStringify j) = some j := by
  have h := parseValue_stringify j [] ((jsonStringify j).length + 1) (by omega)
    (by intro c hc; simp at hc)
  rw [List.append_nil] at h
  unfold jsonParseChars
  rw [h]

/-! ## Pagination cursor codec (`src/utils/cursor.ts`)

`encodeCursor` is `Buffer.from(JSON.stringify(data), "utf8").toString("base64url")`;
`decodeCursor` decodes, parses, and checks only `obj` truthiness and
`obj.v === 1` — there is no signature.  Since the TypeScript object is a
plain dynamic value, the codec is modelled on `Json`; `CursorV1` mirrors the
object literal the program builds (`v`, `nextLink`, `buffer`, `driveId`,
`inputFolderId`, `modifiedAfter`, in this declaration order). -/

/-- The version-1 cursor structure from `src/utils/cursor.ts`. -/
structure CursorV1 where
  nextLink : Option String
  buffer : List Json
  driveId : String
  inputFolderId : String
  modifiedAfter : Option String

/-- A `string | null` value as JSON. -/
def jsonOfOptStr : Option String → Json
  | some s => .str s
  | none => .null

/-- The object literal `{v: 1, nextLink, buffer, driveId, inputFolderId,
modifiedAfter}` in the program's field order. -/
def cursorToJson (c : CursorV1) : Json :=
  .obj [("v", .num 1), ("nextLink", jsonOfOptStr c.nextLink), ("buffer", .arr c.buffer),
        ("driveId", .str c.driveId), ("inputFolderId", .str c.inputFolderId),
        ("modifiedAfter", jsonOfOptStr c.modifiedAfter)]

/-- JavaScript property read `obj[key]`: `none` models `undefined` (missing
key or non-object receiver).  For duplicate keys the last occurrence wins,
as in `JSON.parse`. -/
def jget (j : Json) (key : String) : Option Json :=
  match j with
  | .obj fields => (fields.reverse.find? (fun kv => kv.1 == key)).map (·.2)
  | _ => none

/-- JavaScript truthiness of a JSON value. -/
def jsTruthy : Json → Bool
  | .null => false
  | .bool b => b
  | .num n => !(n == 0)
  | .str s => !(s == "")
  | .arr _ => true
  | .obj _ => true

/-- JavaScript strict equality `x === 1` for a property value (`none` is
`undefined`, never equal to a number). -/
def isNumOne : Option Json → Bool
  | some (.num n) => n == 1
  | _ => false

/-- The `ValidationError` thrown for an unusable cursor. -/
def invalidCursorError : AppError :=
  ⟨400, "ValidationError", "Invalid cursor"⟩

/-- `encodeCursor` from `src/utils/cursor.ts` lines 16-19. -/
def encodeCursor (data : Json) : String :=
  b64urlEncode (utf8EncodeList (jsonStringify data))

/-- `decodeCursor` from `src/utils/cursor.ts` lines 21-30: base64url-decode,
parse as JSON, require a truthy value whose `v` property is `1`; any failure
is the 400 `ValidationError`. -/
def decodeCursor (cursor : String) : Except AppError Json :=
  match jsonParseChars (utf8Decode (b64urlDecode cursor)) with
  | none => .error invalidCursorError
  | some obj =>
    if jsTruthy obj && isNumOne (jget obj "v") then .ok obj
    else .error invalidCursorError

/-- The byte pipeline under the codec round-trips. -/
theorem cursor_bytes_roundtrip (data : Json) :
    jsonParseChars (utf8Decode (b64urlDecode (encodeCursor data))) = some data := by
  show jsonParseChars (utf8Decode (b64urlDecodeVals
    ((b64urlEncodeBytes (utf8EncodeList (jsonStringify data))).filterMap b64Val))) = some data
  rw [b64url_roundtrip _ (utf8EncodeList_lt_256 _), utf8Decode_encodeList,
    jsonParseChars_stringify]

/-- C9: for every validly constructed version-1 cursor structure, the encoded
cursor string decodes successfully back to the same structure, and re-encoding
the decoded value reproduces the original string (round-trip identity). -/
theorem c9_cursor_roundtrip (c : CursorV1) :
    decodeCursor (encodeCursor (cursorToJson c)) = .ok (cursorToJson c)
    ∧ (∀ j, decodeCursor (encodeCursor (cursorToJson c)) = .ok j →
        encodeCursor j = encodeCursor (cursorToJson c)) := by
  have hcond : (jsTruthy (cursorToJson c) && isNumOne (jget (cursorToJson c) "v")) = true := by
    simp [cursorToJson, jget, jsTruthy, isNumOne, List.find?]
  have hdec : decodeCursor (encodeCursor (cursorToJson c)) = .ok (cursorToJson c) := by
    unfold decodeCursor
    rw [cursor_bytes_roundtrip]
    simp [hcond]
  refine ⟨hdec, ?_⟩
  intro j hj
  rw [hdec] at hj
  cases hj
  rfl

/-- Witness for C9 at a concrete cursor bound to drive `d1`, folder `f1`. -/
theorem c9_witness :
    decodeCursor (encodeCursor (cursorToJson ⟨none, [], "d1", "f1", none⟩)) =
      .ok (cursorToJson ⟨none, [], "d1", "f1", none⟩) :=
  (c9_cursor_roundtrip ⟨none, [], "d1", "f1", none⟩).1

/-! ### C4: the cursor is opaque but carries no signature -/

/-- A list of ASCII bytes decodes to the corresponding characters. -/
theorem utf8Decode_ascii : ∀ (l : List Nat), (∀ b ∈ l, b < 128) →
    utf8Decode l = l.map Char.ofNat
  | [], _ => by rw [utf8Decode_nil]; rfl
  | b :: rest, h => by
    have hb : b < 128 := h b (List.mem_cons_self b rest)
    have h1 : utf8DecodeOne b rest = (Char.ofNat b, rest) := by
      unfold utf8DecodeOne
      rw [if_pos hb]
    rw [utf8Decode_cons, h1,
      utf8Decode_ascii rest (fun x hx => h x (List.mem_cons_of_mem b hx))]
    rfl

/-- The JSON object an attacker chooses: version tag 1 plus an arbitrary
field, never produced by the program for any real page. -/
def forgedCursorJson : Json :=
  .obj [("v", .num 1), ("driveId", .str "evil")]

/-- The attacker-supplied cursor string: the base64url text of
`\x7b"v":1,"driveId":"evil"\x7d`, written down directly rather than obtained
from `encodeCursor` on any server-built cursor. -/
def forgedCursorString : String :=
  "eyJ2IjoxLCJkcml2ZUlkIjoiZXZpbCJ9"

/-- `decodeCursor` accepts the hand-written string and hands back the
attacker-chosen fields. -/
theorem decode_forged : decodeCursor forgedCursorString = .ok forgedCursorJson := by
  have hascii : ∀ b ∈ b64urlDecode forgedCursorString, b < 128 := by decide
  unfold decodeCursor
  rw [utf8Decode_ascii _ hascii]
  rfl

/-- C4 counterexample: the client-supplied cursor string
`eyJ2IjoxLCJkcml2ZUlkIjoiZXZpbCJ9`, which no `encodeCursor` call of the
program ever produced, is accepted by `decodeCursor` with the
attacker-chosen field values `v = 1`, `driveId = "evil"`, instead of being
rejected: the cursor structure carries no signature. -/
theorem c4_counterexample :
    decodeCursor "eyJ2IjoxLCJkcml2ZUlkIjoiZXZpbCJ9" =
      .ok (.obj [("v", .num 1), ("driveId", .str "evil")]) :=
  decode_forged

/-- C4 (amended): `decodeCursor` performs no authenticity check at all.  For
every client string, the only rejection is the single 400 `ValidationError`,
and every accepted value is exactly a base64url/JSON decoding that is truthy
and carries `v = 1` — nothing binds acceptance to the codec's encode
operation.  (Scope binding is enforced only later, by the caller's
drive/folder comparison.) -/
theorem c4_cursor_decode_amended (s : String) :
    (∀ e, decodeCursor s = .error e → e = invalidCursorError)
    ∧ (∀ j, decodeCursor s = .ok j →
        jsTruthy j = true ∧ jget j "v" = some (Json.num 1)) := by
  unfold decodeCursor
  cases hp : jsonParseChars (utf8Decode (b64urlDecode s)) with
  | none =>
    refine ⟨fun e he => ?_, fun j hj => ?_⟩
    · simp only [Except.error.injEq] at he
      exact he.symm
    · simp at hj
  | some obj =>
    by_cases hc : (jsTruthy obj && isNumOne (jget obj "v")) = true
    · refine ⟨fun e he => ?_, fun j hj => ?_⟩
      · simp only [if_pos hc] at he
        exact absurd he (by simp)
      · simp only [if_pos hc] at hj
        simp only [Except.ok.injEq] at hj
        obtain rfl : obj = j := hj
        rw [Bool.and_eq_true] at hc
        refine ⟨hc.1, ?_⟩
        have h2 := hc.2
        cases hv : jget obj "v" with
        | none => rw [hv] at h2; simp [isNumOne] at h2
        | some jv =>
          rw [hv] at h2
          cases jv with
          | num n =>
            have hn : n = 1 := by
              have hb : (n == 1) = true := h2
              exact eq_of_beq hb
            subst hn
            rfl
          | null => simp [isNumOne] at h2
          | bool b => simp [isNumOne] at h2
          | str t => simp [isNumOne] at h2
          | arr l => simp [isNumOne] at h2
          | obj m => simp [isNumOne] at h2
    · refine ⟨fun e he => ?_, fun j hj => ?_⟩
      · simp only [if_neg hc, Except.error.injEq] at he
        exact he.symm
      · simp only [if_neg hc] at hj
        exact absurd hj (by simp)

/-- Witness for C4: the amended theorem applied to the rejected string `"!"`
(whose base64url payload is empty, hence unparsable) and to the forged
cursor string. -/
theorem c4_witness :
    invalidCursorError = invalidCursorError ∧
      (jsTruthy forgedCursorJson = true ∧
        jget forgedCursorJson "v" = some (Json.num 1)) := by
  constructor
  · refine (c4_cursor_decode_amended "!").1 invalidCursorError ?_
    unfold decodeCursor
    rw [show b64urlDecode "!" = [] from rfl, utf8Decode_nil]
    rfl
  · exact (c4_cursor_decode_amended forgedCursorString).2 forgedCursorJson decode_forged

/-! ## `validateNextLinkIsSafe` (`src/utils/cursor.ts` lines 32-49)

The function parses `nextLink` with the WHATWG `URL` constructor and then
checks `url.hostname` and `url.pathname`.  The parser is modelled for the
hierarchical `scheme://[userinfo@]host[:port]/path[?query][#fragment]` shape
that every Graph `@odata.nextLink` has: the scheme must be letters followed
by scheme characters and `://`; the host (after the last `@`, before the
first `:`) must be non-empty and is ASCII-lowercased; a port, if present,
must be digits; the pathname is taken verbatim up to `?` or `#` (`"/"` when
absent).  Simplifications, each irrelevant to the claim's checks: no
percent-decoding, no IDNA/Unicode host mapping, no IPv6 bracket syntax, no
dot-segment normalization, no port-range check, and non-hierarchical URLs
(no `//`) are treated as parse failures rather than empty-host successes —
both are rejected by the function, only the error branch differs. -/

/-- ASCII letter test. -/
def isAlpha (c : Char) : Bool :=
  (('a' ≤ c) && (c ≤ 'z')) || (('A' ≤ c) && (c ≤ 'Z'))

/-- Characters allowed in a URL scheme after the first letter. -/
def isSchemeChar (c : Char) : Bool :=
  isAlpha c || c.isDigit || c == '+' || c == '-' || c == '.'

/-- ASCII lower-casing of one character (JS `toLowerCase` on ASCII data). -/
def jsLowerChar (c : Char) : Char :=
  if ('A' ≤ c) && (c ≤ 'Z') then Char.ofNat (c.toNat + 32) else c

/-- ASCII lower-casing of a string. -/
def jsLower (s : String) : String :=
  ⟨s.data.map jsLowerChar⟩

/-- The components of a parsed URL the validator looks at. -/
structure UrlParts where
  scheme : String
  hostname : String
  pathname : String
  deriving DecidableEq, Repr

/-- The authority's host-and-port part: everything after the last `@`. -/
def afterLastAt (auth : List Char) : List Char :=
  (auth.reverse.takeWhile (fun c => !(c == '@'))).reverse

/-- Parse a URL of the hierarchical `scheme://authority/path` shape into the
components `validateNextLinkIsSafe` inspects; `none` models a `URL`
constructor throw. -/
def parseURLChars (cs : List Char) : Option UrlParts :=
  let schemeCs := cs.takeWhile isSchemeChar
  let rest1 := cs.drop schemeCs.length
  match schemeCs with
  | [] => none
  | c0 :: _ =>
    if isAlpha c0 then
      match rest1 with
      | ':' :: '/' :: '/' :: rest2 =>
        let auth := rest2.takeWhile (fun c => !(c == '/' || c == '?' || c == '#'))
        let rest3 := rest2.drop auth.length
        let hostPort := afterLastAt auth
        let host := hostPort.takeWhile (fun c => !(c == ':'))
        let portCs := (hostPort.drop host.length).drop 1
        if host.isEmpty then none
        else if !(portCs.all Char.isDigit) then none
        else
          let pathCs := rest3.takeWhile (fun c => !(c == '?' || c == '#'))
          some { scheme := jsLower ⟨schemeCs⟩
                 hostname := jsLower ⟨host⟩
                 pathname := if pathCs.isEmpty then "/" else ⟨pathCs⟩ }
      | _ => none
    else none

/-- `new URL(s)` restricted to the validator's needs. -/
def parseURL (s : String) : Option UrlParts :=
  parseURLChars s.data

/-- `validateNextLinkIsSafe` from `src/utils/cursor.ts` lines 32-49,
translated check for check; `.error` models a throw. -/
def validateNextLinkIsSafe (nextLink driveId inputFolderId : String) :
    Except AppError Unit :=
  match parseURL nextLink with
  | none => .error ⟨400, "ValidationError", "Invalid nextLink in cursor"⟩
  | some url =>
    if url.hostname != "graph.microsoft.com" then
      .error ⟨403, "Forbidden", "Cursor host not allowed"⟩
    else if !(jsStartsWith url.pathname "/v1.0/") then
      .error ⟨403, "Forbidden", "Cursor version not allowed"⟩
    else if !(jsStartsWith url.pathname
        ("/v1.0/drives/" ++ driveId ++ "/items/" ++ inputFolderId ++ "/children")) then
      .error ⟨403, "Forbidden", "Cursor path outside allowlisted input folder"⟩
    else .ok ()

/-- C2: `validateNextLinkIsSafe` accepts a continuation reference iff it
parses as a URL whose hostname is `graph.microsoft.com`, whose path starts
with `/v1.0/`, and whose path starts with the allowlisted listing endpoint
`/v1.0/drives/{driveId}/items/{inputFolderId}/children` for the bound drive
and folder; every other reference is rejected with a 400 `ValidationError`
or a 403 `Forbidden` error. -/
theorem c2_nextlink_allowlist (nextLink driveId inputFolderId : String) :
    (validateNextLinkIsSafe nextLink driveId inputFolderId = .ok () ↔
      ∃ u, parseURL nextLink = some u ∧
        u.hostname = "graph.microsoft.com" ∧
        jsStartsWith u.pathname "/v1.0/" = true ∧
        jsStartsWith u.pathname
          ("/v1.0/drives/" ++ driveId ++ "/items/" ++ inputFolderId ++ "/children") = true)
    ∧ (∀ e, validateNextLinkIsSafe nextLink driveId inputFolderId = .error e →
        (e.status = 400 ∧ e.code = "ValidationError") ∨
        (e.status = 403 ∧ e.code = "Forbidden")) := by
  unfold validateNextLinkIsSafe
  cases hp : parseURL nextLink with
  | none =>
    refine ⟨⟨fun h => absurd h (by simp), ?_⟩, fun e he => ?_⟩
    · rintro ⟨u, hu, _⟩
      exact absurd hu (by simp)
    · simp only [Except.error.injEq] at he
      left
      rw [← he]
      exact ⟨rfl, rfl⟩
  | some u =>
    by_cases h1 : (u.hostname != "graph.microsoft.com") = true
    · refine ⟨⟨fun h => ?_, ?_⟩, fun e he => ?_⟩
      · simp only [if_pos h1] at h
        exact absurd h (by simp)
      · rintro ⟨v, hv, hh, _⟩
        simp only [Option.some.injEq] at hv
        subst hv
        exact absurd hh (bne_iff_ne.mp h1)
      · simp only [if_pos h1, Except.error.injEq] at he
        right
        rw [← he]
        exact ⟨rfl, rfl⟩
    · by_cases h2 : (!(jsStartsWith u.pathname "/v1.0/")) = true
      · refine ⟨⟨fun h => ?_, ?_⟩, fun e he => ?_⟩
        · simp only [if_neg h1, if_pos h2] at h
          exact absurd h (by simp)
        · rintro ⟨v, hv, _, hs, _⟩
          simp only [Option.some.injEq] at hv
          subst hv
          simp only [Bool.not_eq_eq_eq_not, Bool.not_true] at h2
          rw [hs] at h2
          exact absurd h2 (by simp)
        · simp only [if_neg h1, if_pos h2, Except.error.injEq] at he
          right
          rw [← he]
          exact ⟨rfl, rfl⟩
      · by_cases h3 : (!(jsStartsWith u.pathname
            ("/v1.0/drives/" ++ driveId ++ "/items/" ++ inputFolderId ++ "/children"))) = true
        · refine ⟨⟨fun h => ?_, ?_⟩, fun e he => ?_⟩
          · simp only [if_neg h1, if_neg h2, if_pos h3] at h
            exact absurd h (by simp)
          · rintro ⟨v, hv, _, _, hs⟩
            simp only [Option.some.injEq] at hv
            subst hv
            simp only [Bool.not_eq_eq_eq_not, Bool.not_true] at h3
            rw [hs] at h3
            exact absurd h3 (by simp)
          · simp only [if_neg h1, if_neg h2, if_pos h3, Except.error.injEq] at he
            right
            rw [← he]
            exact ⟨rfl, rfl⟩
        · refine ⟨⟨fun _ => ?_, fun _ => ?_⟩, fun e he => ?_⟩
          · refine ⟨u, rfl, ?_, ?_, ?_⟩
            · have h1a : ¬ u.hostname ≠ "graph.microsoft.com" := fun hne =>
                h1 (bne_iff_ne.mpr hne)
              exact not_not.mp h1a
            · cases hb : jsStartsWith u.pathname "/v1.0/" with
              | true => rfl
              | false => exact absurd (by rw [hb]; rfl) h2
            · cases hb : jsStartsWith u.pathname
                  ("/v1.0/drives/" ++ driveId ++ "/items/" ++ inputFolderId ++ "/children") with
              | true => rfl
              | false => exact absurd (by rw [hb]; rfl) h3
          · simp only [if_neg h1, if_neg h2, if_neg h3]
          · simp only [if_neg h1, if_neg h2, if_neg h3] at he
            exact absurd he (by simp)

/-- Witness for C2: a genuine Graph listing nextLink for drive `d1`, folder
`f1` is accepted, and a link pointing at another host is classified as one
of the two rejection errors (here 403 `Forbidden`). -/
theorem c2_witness :
    validateNextLinkIsSafe
        "https://graph.microsoft.com/v1.0/drives/d1/items/f1/children" "d1" "f1" = .ok ()
    ∧ (((⟨403, "Forbidden", "Cursor host not allowed"⟩ : AppError).status = 400 ∧
          (⟨403, "Forbidden", "Cursor host not allowed"⟩ : AppError).code = "ValidationError") ∨
        ((⟨403, "Forbidden", "Cursor host not allowed"⟩ : AppError).status = 403 ∧
          (⟨403, "Forbidden", "Cursor host not allowed"⟩ : AppError).code = "Forbidden")) := by
  constructor
  · exact (c2_nextlink_allowlist
        "https://graph.microsoft.com/v1.0/drives/d1/items/f1/children" "d1" "f1").1.mpr
      ⟨⟨"https", "graph.microsoft.com", "/v1.0/drives/d1/items/f1/children"⟩, rfl, rfl, rfl, rfl⟩
  · exact (c2_nextlink_allowlist
        "https://evil.example/v1.0/drives/d1/items/f1/children" "d1" "f1").2
      ⟨403, "Forbidden", "Cursor host not allowed"⟩ rfl

/-! ## The cursor gate of `sp_list_protocols`
(`src/tools/sp_list_protocols.ts` lines 109-121)

When the validated input carries a cursor, the tool decodes it and checks
the sticky bindings before anything else: `cur.driveId !==
scope.driveId || cur.inputFolderId !== scope.inputFolderId` throws 403
`Forbidden`, then `cur.modifiedAfter !== modifiedAfter` throws 400
`ValidationError` (where `modifiedAfter = input.modifiedAfter ?? null`).
The decoded cursor is a dynamic JSON value, so the `!==` comparisons are
JavaScript strict equality between a possibly missing property and a
string (or `string | null`): `undefined` matches nothing, `null` matches
only `null`.  A thrown `AppError` propagates out of `sp_list_protocols`
(there is no surrounding try/catch), so the gate's error is the call's
result; the code after the gate is modelled as the successfully passed
cursor value. -/

/-- The two sticky identifiers of the resolved scope
(`scope.driveId`, `scope.inputFolderId`). -/
structure Scope where
  driveId : String
  inputFolderId : String
  deriving DecidableEq, Repr

/-- JavaScript `v === s` for a property value and a string. -/
def jsStrictEqStr (v : Option Json) (s : String) : Bool :=
  match v with
  | some (.str t) => t == s
  | _ => false

/-- JavaScript `v === o` for a property value and a `string | null`. -/
def jsStrictEqOptStr (v : Option Json) (o : Option String) : Bool :=
  match v, o with
  | some (.str t), some s => t == s
  | some .null, none => true
  | _, _ => false

/-- The two binding checks and the pass-through, lines 110-121. -/
def spListCursorChecks (cur : Json) (scope : Scope) (modifiedAfter : Option String) :
    Except AppError (Option Json) :=
  if !(jsStrictEqStr (jget cur "driveId") scope.driveId) ||
      !(jsStrictEqStr (jget cur "inputFolderId") scope.inputFolderId) then
    .error ⟨403, "Forbidden", "Cursor scope mismatch"⟩
  else if !(jsStrictEqOptStr (jget cur "modifiedAfter") modifiedAfter) then
    .error ⟨400, "ValidationError", "Cursor modifiedAfter mismatch"⟩
  else .ok (some cur)

/-- Lines 109-121 of `sp_list_protocols`: decode the presented cursor (its
throw propagates) and enforce the scope and filter bindings. -/
def spListProtocolsCursorGate (cursor : Option String) (scope : Scope)
    (modifiedAfter : Option String) : Except AppError (Option Json) :=
  match cursor with
  | none => .ok none
  | some cstr =>
    match decodeCursor cstr with
    | .error e => .error e
    | .ok cur => spListCursorChecks cur scope modifiedAfter

/-- Unfolding of the gate on a present cursor. -/
theorem spListGate_some (cstr : String) (scope : Scope) (ma : Option String) :
    spListProtocolsCursorGate (some cstr) scope ma =
      match decodeCursor cstr with
      | .error e => .error e
      | .ok cur => spListCursorChecks cur scope ma := rfl

/-- C3: for a call presenting a cursor that decodes to `cur`: a `driveId` or
`inputFolderId` binding that does not match the scope in effect fails with
403 `Forbidden` ("Cursor scope mismatch"); with matching identifiers, a
`modifiedAfter` binding that differs from the call's filter fails with 400
`ValidationError` ("Cursor modifiedAfter mismatch"); only a cursor matching
on all three is let through, never reinterpreted. -/
theorem c3_cursor_binding (cstr : String) (scope : Scope)
    (modifiedAfter : Option String) (cur : Json)
    (hdec : decodeCursor cstr = .ok cur) :
    (¬ (jsStrictEqStr (jget cur "driveId") scope.driveId = true ∧
        jsStrictEqStr (jget cur "inputFolderId") scope.inputFolderId = true) →
      spListProtocolsCursorGate (some cstr) scope modifiedAfter =
        .error ⟨403, "Forbidden", "Cursor scope mismatch"⟩)
    ∧ (jsStrictEqStr (jget cur "driveId") scope.driveId = true →
        jsStrictEqStr (jget cur "inputFolderId") scope.inputFolderId = true →
        jsStrictEqOptStr (jget cur "modifiedAfter") modifiedAfter = false →
        spListProtocolsCursorGate (some cstr) scope modifiedAfter =
          .error ⟨400, "ValidationError", "Cursor modifiedAfter mismatch"⟩)
    ∧ (jsStrictEqStr (jget cur "driveId") scope.driveId = true →
        jsStrictEqStr (jget cur "inputFolderId") scope.inputFolderId = true →
        jsStrictEqOptStr (jget cur "modifiedAfter") modifiedAfter = true →
        spListProtocolsCursorGate (some cstr) scope modifiedAfter = .ok (some cur)) := by
  have hg : spListProtocolsCursorGate (some cstr) scope modifiedAfter =
      spListCursorChecks cur scope modifiedAfter := by
    rw [spListGate_some, hdec]
  rw [hg]
  unfold spListCursorChecks
  refine ⟨fun hmm => ?_, fun hd hf hm => ?_, fun hd hf hm => ?_⟩
  · have hor : (!(jsStrictEqStr (jget cur "driveId") scope.driveId) ||
        !(jsStrictEqStr (jget cur "inputFolderId") scope.inputFolderId)) = true := by
      rcases Bool.eq_false_or_eq_true (jsStrictEqStr (jget cur "driveId") scope.driveId) with
        hb | hb
      · rcases Bool.eq_false_or_eq_true
          (jsStrictEqStr (jget cur "inputFolderId") scope.inputFolderId) with hc | hc
        · exact absurd ⟨hb, hc⟩ hmm
        · rw [hb, hc]; rfl
      · rw [hb]; rfl
    rw [if_pos hor]
  · have hor : (!(jsStrictEqStr (jget cur "driveId") scope.driveId) ||
        !(jsStrictEqStr (jget cur "inputFolderId") scope.inputFolderId)) = false := by
      rw [hd, hf]; rfl
    have hm2 : (!(jsStrictEqOptStr (jget cur "modifiedAfter") modifiedAfter)) = true := by
      rw [hm]; rfl
    rw [if_neg (by rw [hor]; exact Bool.false_ne_true), if_pos hm2]
  · have hor : (!(jsStrictEqStr (jget cur "driveId") scope.driveId) ||
        !(jsStrictEqStr (jget cur "inputFolderId") scope.inputFolderId)) = false := by
      rw [hd, hf]; rfl
    have hm2 : (!(jsStrictEqOptStr (jget cur "modifiedAfter") modifiedAfter)) = false := by
      rw [hm]; rfl
    rw [if_neg (by rw [hor]; exact Bool.false_ne_true),
      if_neg (by rw [hm2]; exact Bool.false_ne_true)]

/-- A legitimately issued cursor value: drive `d1`, folder `f1`, no filter. -/
def legitCursorJson : Json :=
  cursorToJson ⟨none, [], "d1", "f1", none⟩

/-- The cursor string for `legitCursorJson` (base64url of its JSON text). -/
def legitCursorString : String :=
  "eyJ2IjoxLCJuZXh0TGluayI6bnVsbCwiYnVmZmVyIjpbXSwiZHJpdmVJZCI6ImQxIiwiaW5wdXRGb2xkZXJJZCI6ImYxIiwibW9kaWZpZWRBZnRlciI6bnVsbH0"

/-- The legit cursor string decodes to its cursor value. -/
theorem decode_legitCursor : decodeCursor legitCursorString = .ok legitCursorJson := by
  have hascii : ∀ b ∈ b64urlDecode legitCursorString, b < 128 := by decide
  unfold decodeCursor
  rw [utf8Decode_ascii _ hascii]
  rfl

/-- Witness for C3: the cursor bound to `d1`/`f1` with no filter is rejected
403 under scope `dX`/`f1`, rejected 400 when the call filters by a
`modifiedAfter`, and passed through unchanged when everything matches. -/
theorem c3_witness :
    spListProtocolsCursorGate (some legitCursorString) ⟨"dX", "f1"⟩ none =
      .error ⟨403, "Forbidden", "Cursor scope mismatch"⟩
    ∧ spListProtocolsCursorGate (some legitCursorString) ⟨"d1", "f1"⟩
        (some "2024-01-01T00:00:00Z") =
      .error ⟨400, "ValidationError", "Cursor modifiedAfter mismatch"⟩
    ∧ spListProtocolsCursorGate (some legitCursorString) ⟨"d1", "f1"⟩ none =
      .ok (some legitCursorJson) := by
  refine ⟨?_, ?_, ?_⟩
  · exact (c3_cursor_binding legitCursorString ⟨"dX", "f1"⟩ none legitCursorJson
      decode_legitCursor).1 (by decide)
  · exact (c3_cursor_binding legitCursorString ⟨"d1", "f1"⟩ (some "2024-01-01T00:00:00Z")
      legitCursorJson decode_legitCursor).2.1 (by decide) (by decide) (by decide)
  · exact (c3_cursor_binding legitCursorString ⟨"d1", "f1"⟩ none legitCursorJson
      decode_legitCursor).2.2 (by decide) (by decide) (by decide)

/-! ## JWT verification (`src/auth/jwtVerify.ts`, `src/unnamed/part_003`)

`decodeSegment` runs `JSON.parse` on the base64url-decoded segment with no
try/catch anywhere in `decodeJwt`/`verifyJwt`, so a malformed segment throws
a native `SyntaxError` rather than an `AppError`.  The error type
distinguishes the two: `.app` is a thrown `AppError`, `.generic` a native
throw.  `Buffer.from(seg, "base64")` after `-`/`_` normalization and padding
is Node's lenient base64 decoding, modelled by the lenient `b64urlDecode`;
`buf.toString("utf8")` is the lenient `utf8Decode`.  Network and crypto are
oracles: `getKey` models `getJwk` (which itself throws only 401
`AppError`s; a rejected `fetch` is out of the model), `sigVerify` models
`crypto.verify`.  Non-string entries of a `scope`/`authorities` array are
dropped rather than carried as non-string set members; they can never equal
a required scope string. -/

/-- An error escaping `verifyJwt`: a thrown `AppError` or a native error. -/
inductive JwtError where
  | app (e : AppError)
  | generic (message : String)
  deriving DecidableEq, Repr

/-- JavaScript `String.prototype.split` with a one-character separator. -/
def splitOnChar (sep : Char) : List Char → List (List Char)
  | [] => [[]]
  | c :: rest =>
    let r := splitOnChar sep rest
    if c == sep then [] :: r
    else
      match r with
      | h :: t => (c :: h) :: t
      | [] => [[c]]

/-- `splitList` from the verifier: comma-split, trim, drop empties. -/
def splitList (raw : Option String) : List String :=
  match raw with
  | none => []
  | some s =>
    if s == "" then []
    else ((splitOnChar ',' s.data).map (fun cs => jsTrim ⟨cs⟩)).filter (fun t => t != "")

/-- `decodeSegment`: base64url-decode, read as UTF-8, `JSON.parse`; a parse
failure is an uncaught native `SyntaxError`. -/
def decodeSegment (segment : String) : Except JwtError Json :=
  match jsonParseChars (utf8Decode (b64urlDecode segment)) with
  | some j => .ok j
  | none => .error (.generic "SyntaxError")

/-- `decodeJwt`: exactly three dot-separated non-empty segments, then decode
header and payload; the signature bytes and the signing input string. -/
def decodeJwt (token : String) : Except JwtError (Json × Json × List Nat × String) :=
  match (splitOnChar '.' token.data).map (fun cs => (⟨cs⟩ : String)) with
  | [headerSeg, payloadSeg, sigSeg] =>
    if headerSeg == "" || payloadSeg == "" || sigSeg == "" then
      .error (.app ⟨401, "Unauthorized", "Invalid JWT format"⟩)
    else
      match decodeSegment headerSeg with
      | .error e => .error e
      | .ok header =>
        match decodeSegment payloadSeg with
        | .error e => .error e
        | .ok payload =>
          .ok (header, payload, b64urlDecode sigSeg, headerSeg ++ "." ++ payloadSeg)
  | _ => .error (.app ⟨401, "Unauthorized", "Invalid JWT format"⟩)

/-- Truthiness of a possibly missing property. -/
def jsTruthyProp (v : Option Json) : Bool :=
  match v with
  | none => false
  | some j => jsTruthy j

/-- `audMatches` from the verifier. -/
def audMatches (aud : Option Json) (expected : String) : Bool :=
  match aud with
  | none => false
  | some a =>
    if !(jsTruthy a) then false
    else
      match a with
      | .arr xs => xs.any (fun j => match j with | .str s => s == expected | _ => false)
      | .str s => s == expected
      | _ => false

/-- The string elements of a JSON array. -/
def jsonStrings (xs : List Json) : List String :=
  xs.filterMap (fun j => match j with | .str s => some s | _ => none)

/-- `extractScopes`: the `scope` claim (array or space-separated string)
then `authorities`, deduplicated in first-insertion order (`Set`). -/
def extractScopes (payload : Json) : List String :=
  let fromScope :=
    match jget payload "scope" with
    | some (.arr xs) => jsonStrings xs
    | some (.str s) =>
      ((splitOnChar ' ' s.data).map (fun cs => jsTrim ⟨cs⟩)).filter (fun t => t != "")
    | _ => []
  let fromAuth :=
    match jget payload "authorities" with
    | some (.arr xs) => jsonStrings xs
    | _ => []
  (fromScope ++ fromAuth).foldl (fun acc s => if acc.contains s then acc else acc ++ [s]) []

/-- The verifier configuration slice `verifyJwt` reads. -/
structure JwtConfig where
  jwtIssuer : Option String
  jwtAudience : Option String
  clockTol : Int
  requiredScopes : Option String

/-- The result record of a successful verification. -/
structure VerifiedJwt where
  token : String
  header : Json
  payload : Json
  sub : Option String
  scopes : List String
  clientId : Option String

/-- `config.JWT_ISSUER && payload.iss !== config.JWT_ISSUER`. -/
def issuerRejected (payload : Json) (cfgIss : Option String) : Bool :=
  match cfgIss with
  | some iss => iss != "" && !(jsStrictEqStr (jget payload "iss") iss)
  | none => false

/-- `config.JWT_AUDIENCE && !audMatches(payload.aud, config.JWT_AUDIENCE)`. -/
def audienceRejected (payload : Json) (cfgAud : Option String) : Bool :=
  match cfgAud with
  | some a => a != "" && !(audMatches (jget payload "aud") a)
  | none => false

/-- `typeof payload.nbf === "number" && now + skew < payload.nbf`. -/
def nbfRejected (payload : Json) (now skew : Int) : Bool :=
  match jget payload "nbf" with
  | some (.num n) => decide (now + skew < n)
  | _ => false

/-- `typeof payload.exp === "number" && now - skew > payload.exp`. -/
def expRejected (payload : Json) (now skew : Int) : Bool :=
  match jget payload "exp" with
  | some (.num n) => decide (now - skew > n)
  | _ => false

/-- `typeof payload.sub === "string" ? payload.sub : null`. -/
def subOf (payload : Json) : Option String :=
  match jget payload "sub" with
  | some (.str s) => some s
  | _ => none

/-- `(typeof client_id === "string" && client_id) || (typeof azp === "string"
&& azp) || null`: an empty string is falsy and falls through. -/
def clientIdOf (payload : Json) : Option String :=
  match jget payload "client_id" with
  | some (.str s) =>
    if s != "" then some s
    else match jget payload "azp" with
      | some (.str t) => if t != "" then some t else none
      | _ => none
  | _ =>
    match jget payload "azp" with
    | some (.str t) => if t != "" then some t else none
    | _ => none

/-- `verifyJwt` with key lookup, signature check and clock as oracles; the
check order is the source's.  `missing.length > 0` is written as
non-emptiness of the same filter. -/
def verifyJwt (token : String) (cfg : JwtConfig)
    (getKey : Json → Except AppError Json)
    (sigVerify : String → List Nat → Json → Bool)
    (now : Int) : Except JwtError VerifiedJwt :=
  match decodeJwt token with
  | .error e => .error e
  | .ok (header, payload, signature, signingInput) =>
    if !(jsStrictEqStr (jget header "alg") "RS256") then
      .error (.app ⟨401, "Unauthorized", "Unsupported JWT algorithm"⟩)
    else if !(jsTruthyProp (jget header "kid")) then
      .error (.app ⟨401, "Unauthorized", "Missing JWT kid"⟩)
    else
      match getKey ((jget header "kid").getD .null) with
      | .error e => .error (.app e)
      | .ok jwk =>
        if !(sigVerify signingInput signature jwk) then
          .error (.app ⟨401, "Unauthorized", "Invalid JWT signature"⟩)
        else if issuerRejected payload cfg.jwtIssuer then
          .error (.app ⟨401, "Unauthorized", "Invalid JWT issuer"⟩)
        else if audienceRejected payload cfg.jwtAudience then
          .error (.app ⟨401, "Unauthorized", "Invalid JWT audience"⟩)
        else if nbfRejected payload now cfg.clockTol then
          .error (.app ⟨401, "Unauthorized", "JWT not active yet"⟩)
        else if expRejected payload now cfg.clockTol then
          .error (.app ⟨401, "Unauthorized", "JWT expired"⟩)
        else
          let scopes := extractScopes payload
          let required := splitList cfg.requiredScopes
          if !required.isEmpty &&
              !(required.filter (fun s => !(scopes.contains s))).isEmpty then
            .error (.app ⟨403, "Forbidden", "Missing required scopes"⟩)
          else
            .ok ⟨token, header, payload, subOf payload, scopes, clientIdOf payload⟩

/-- The segment `AAAA` (bytes 0,0,0) is not JSON: a native error escapes. -/
theorem decodeSegment_AAAA : decodeSegment "AAAA" = .error (.generic "SyntaxError") := by
  unfold decodeSegment
  rw [show b64urlDecode "AAAA" = [0, 0, 0] from rfl, utf8Decode_ascii [0, 0, 0] (by decide)]
  rfl

/-- `decodeJwt` on the three-segment token `AAAA.AAAA.AAAA` propagates the
native error. -/
theorem decodeJwt_AAAA : decodeJwt "AAAA.AAAA.AAAA" = .error (.generic "SyntaxError") := by
  have h1 : decodeJwt "AAAA.AAAA.AAAA" =
      match decodeSegment "AAAA" with
      | .error e => .error e
      | .ok header =>
        match decodeSegment "AAAA" with
        | .error e => .error e
        | .ok payload =>
          .ok (header, payload, b64urlDecode "AAAA", "AAAA" ++ "." ++ "AAAA") := rfl
  rw [h1, decodeSegment_AAAA]

/-- C5: the bearer string `AAAA.AAAA.AAAA` has exactly three dot-separated
segments but its header segment is not JSON; `verifyJwt` then fails with an
uncaught native `SyntaxError` — a generic failure, not the named 401
`Unauthorized` error the specification promises for every invalid token —
under every configuration, key set, signature oracle and clock. -/
theorem c5_verifyJwt_generic (cfg : JwtConfig) (getKey : Json → Except AppError Json)
    (sigVerify : String → List Nat → Json → Bool) (now : Int) :
    verifyJwt "AAAA.AAAA.AAAA" cfg getKey sigVerify now =
      .error (.generic "SyntaxError") := by
  unfold verifyJwt
  rw [decodeJwt_AAAA]

/-! ## User identity (`src/auth/userIdentity.ts`)

`decodeJwtPayload` here is separate from the verifier's: it needs only two
dot-separated parts and wraps `JSON.parse` in try/catch (401 on failure).
`pickString` keeps a value only if it is a string whose trim is non-empty —
and returns the original, untrimmed string.  `normalizeUserKey` computes
`trim → toLowerCase → replace /[^a-z0-9._-]+/g with "_" → strip edge
underscores → clip to 40`, then appends `-` and the first 8 hex characters
of the SHA-256 of the raw identifier; when the clipped base is empty it
substitutes the literal `"user"`.  The hash is an oracle `hash : String →
String` (its hex digest).  `Date.now()/1000` is the oracle `nowSec : Rat`. -/

/-- JavaScript `a ?? b` for `string | null` values. -/
def jsNullish (a b : Option String) : Option String :=
  match a with
  | some s => some s
  | none => b

/-- `decodeJwtPayload`'s segment step: base64url → UTF-8 → `JSON.parse`,
with the parse failure caught as 401. -/
def decodePayloadSeg (seg : String) : Except AppError Json :=
  match jsonParseChars (utf8Decode (b64urlDecode seg)) with
  | some j => .ok j
  | none => .error ⟨401, "Unauthorized", "Invalid JWT payload"⟩

/-- `decodeJwtPayload` from `src/auth/userIdentity.ts` lines 12-23. -/
def decodeJwtPayload (token : String) : Except AppError Json :=
  let parts := splitOnChar '.' token.data
  if parts.length < 2 then .error ⟨401, "Unauthorized", "Invalid JWT format"⟩
  else decodePayloadSeg ⟨(parts.get? 1).getD []⟩

/-- `pickString`: a string claim whose trim is non-empty, untrimmed. -/
def pickString (v : Option Json) : Option String :=
  match v with
  | some (.str s) => if jsTrim s != "" then some s else none
  | _ => none

/-- `payload.ext_attr?.email` (optional chaining on a dynamic value). -/
def extAttrEmail (payload : Json) : Option Json :=
  match jget payload "ext_attr" with
  | some a => jget a "email"
  | none => none

/-- Characters the normalizer keeps: `[a-z0-9._-]`. -/
def isSafeChar (c : Char) : Bool :=
  (('a' ≤ c) && (c ≤ 'z')) || c.isDigit || c == '.' || c == '_' || c == '-'

/-- `replace(/[^a-z0-9._-]+/g, "_")`: each maximal unsafe run becomes a
single underscore; the flag records being inside a run. -/
def replaceRunsAux : Bool → List Char → List Char
  | _, [] => []
  | inRun, c :: rest =>
    if isSafeChar c then c :: replaceRunsAux false rest
    else if inRun then replaceRunsAux true rest
    else '_' :: replaceRunsAux true rest

/-- `replace(/^_+|_+$/g, "")`: strip leading and trailing underscores. -/
def trimUnderscoresChars (cs : List Char) : List Char :=
  ((cs.dropWhile (fun c => c == '_')).reverse.dropWhile (fun c => c == '_')).reverse

/-- The clipped normalized base of `normalizeUserKey` (before the hash
suffix): trim, lower-case, collapse unsafe runs, strip edge underscores,
clip to 40 characters. -/
def clippedOf (raw : String) : List Char :=
  let base := jsLower (jsTrim raw)
  let safe := trimUnderscoresChars (replaceRunsAux false base.data)
  if safe.length > 40 then safe.take 40 else safe

/-- `normalizeUserKey` from `src/auth/userIdentity.ts` lines 29-35. -/
def normalizeUserKey (hash : String → String) (raw : String) : String :=
  (if (clippedOf raw).isEmpty then "user" else (⟨clippedOf raw⟩ : String)) ++ "-" ++
    (⟨(hash raw).data.take 8⟩ : String)

/-- The userKey computation as the claim words it: the same normalization
pipeline but with NO substitute base when the clipped string is empty. -/
def specUserKeyClaim (hash : String → String) (raw : String) : String :=
  (⟨clippedOf raw⟩ : String) ++ "-" ++ (⟨(hash raw).data.take 8⟩ : String)

/-- `email = pickString(payload.email) ?? pickString(extAttr?.email)`. -/
def emailOf (payload : Json) : Option String :=
  jsNullish (pickString (jget payload "email")) (pickString (extAttrEmail payload))

/-- `userName = pickString(payload.user_name)`. -/
def userNameOf (payload : Json) : Option String :=
  pickString (jget payload "user_name")

/-- `upn = pickString(payload.upn) ?? pickString(payload.preferred_username)`. -/
def upnOf (payload : Json) : Option String :=
  jsNullish (pickString (jget payload "upn")) (pickString (jget payload "preferred_username"))

/-- `subject = pickString(payload.sub)`. -/
def subjectOf (payload : Json) : Option String :=
  pickString (jget payload "sub")

/-- `rawUserId = email ?? userName ?? upn ?? subject`. -/
def rawUserIdOf (payload : Json) : Option String :=
  jsNullish (emailOf payload)
    (jsNullish (userNameOf payload) (jsNullish (upnOf payload) (subjectOf payload)))

/-- `exp && Date.now()/1000 > exp` for a numeric `exp` claim. -/
def jwtExpRejected (payload : Json) (nowSec : Rat) : Bool :=
  match jget payload "exp" with
  | some (.num n) => !(n == 0) && decide ((n : Rat) < nowSec)
  | _ => false

/-- The result record of `getUserIdentityFromJwt`. -/
structure UserIdentity where
  userKey : String
  email : Option String
  upn : Option String
  subject : Option String
  rawUserId : String

/-- `getUserIdentityFromJwt` from `src/auth/userIdentity.ts` lines 45-70. -/
def getUserIdentityFromJwt (hash : String → String) (token : String) (nowSec : Rat) :
    Except AppError UserIdentity :=
  match decodeJwtPayload token with
  | .error e => .error e
  | .ok payload =>
    if jwtExpRejected payload nowSec then .error ⟨401, "Unauthorized", "JWT expired"⟩
    else
      match rawUserIdOf payload with
      | none => .error ⟨401, "Unauthorized", "Missing user identity in JWT"⟩
      | some raw =>
        .ok ⟨normalizeUserKey hash raw, emailOf payload, upnOf payload,
          subjectOf payload, raw⟩

/-- A fixed 64-hex-character digest standing in for one SHA-256 value. -/
def sampleDigest : String :=
  "0123456789abcdef0123456789abcdef0123456789abcdef0123456789abcdef"

/-- The token `e30.eyJlbWFpbCI6IiEhISJ9` carries the payload
`\x7b"email":"!!!"\x7d`. -/
theorem decodePayload_c6 :
    decodeJwtPayload "e30.eyJlbWFpbCI6IiEhISJ9" = .ok (.obj [("email", .str "!!!")]) := by
  have h1 : decodeJwtPayload "e30.eyJlbWFpbCI6IiEhISJ9" =
      decodePayloadSeg "eyJlbWFpbCI6IiEhISJ9" := rfl
  rw [h1]
  unfold decodePayloadSeg
  have hascii : ∀ b ∈ b64urlDecode "eyJlbWFpbCI6IiEhISJ9", b < 128 := by decide
  rw [utf8Decode_ascii _ hascii]
  rfl

/-- C6 counterexample: the token whose only identity claim is the email
`"!!!"` — every character is outside `[a-z0-9._-]`, so the normalized base
is empty.  The code substitutes the literal `"user"` and produces
`user-01234567`, while the claim's computation (normalize, clip, append the
hash suffix — with no substitute base) produces `-01234567`. -/
theorem c6_counterexample :
    getUserIdentityFromJwt (fun _ => sampleDigest) "e30.eyJlbWFpbCI6IiEhISJ9" 0 =
      .ok ⟨"user-01234567", some "!!!", none, none, "!!!"⟩
    ∧ specUserKeyClaim (fun _ => sampleDigest) "!!!" = "-01234567"
    ∧ "user-01234567" ≠ "-01234567" := by
  refine ⟨?_, by rfl, by decide⟩
  unfold getUserIdentityFromJwt
  rw [decodePayload_c6]
  rfl

/-- C6 (amended): on a token whose payload decodes and whose `exp` check
passes, the raw user identifier is the first non-empty string claim in
priority order `email` (including `ext_attr.email`) → `user_name` →
`upn`/`preferred_username` → `sub`; with none present the call fails 401
`Unauthorized`.  The `userKey` is the claim's normalization pipeline
(lower-case, collapse runs outside `[a-z0-9._-]` to one underscore, strip
edge underscores, clip to 40, append 8 hex characters of the hash of the
raw identifier) whenever the clipped base is non-empty — but when the
normalization erases everything, the code substitutes the literal base
`"user"` instead of the claim's empty base. -/
theorem c6_user_identity_amended (hash : String → String) (token : String) (nowSec : Rat)
    (payload : Json) (hp : decodeJwtPayload token = .ok payload)
    (hexp : jwtExpRejected payload nowSec = false) :
    (rawUserIdOf payload = none →
      getUserIdentityFromJwt hash token nowSec =
        .error ⟨401, "Unauthorized", "Missing user identity in JWT"⟩)
    ∧ (∀ raw, rawUserIdOf payload = some raw →
        getUserIdentityFromJwt hash token nowSec =
          .ok ⟨normalizeUserKey hash raw, emailOf payload, upnOf payload,
            subjectOf payload, raw⟩)
    ∧ (∀ raw, (clippedOf raw).isEmpty = false →
        normalizeUserKey hash raw = specUserKeyClaim hash raw)
    ∧ (∀ raw, (clippedOf raw).isEmpty = true →
        normalizeUserKey hash raw = "user" ++ "-" ++ (⟨(hash raw).data.take 8⟩ : String)) := by
  refine ⟨fun hnone => ?_, fun raw hraw => ?_, fun raw hcl => ?_, fun raw hcl => ?_⟩
  · unfold getUserIdentityFromJwt
    rw [hp]
    simp only [hexp, Bool.false_eq_true, if_false, hnone]
  · unfold getUserIdentityFromJwt
    rw [hp]
    simp only [hexp, Bool.false_eq_true, if_false, hraw]
  · unfold normalizeUserKey specUserKeyClaim
    rw [if_neg (by rw [hcl]; exact Bool.false_ne_true)]
  · unfold normalizeUserKey
    rw [if_pos hcl]

/-- Witness for C6: the amended theorem applied to the `"!!!"`-email token
with the sample digest, using both the priority conjunct and the
empty-base fallback conjunct. -/
theorem c6_witness :
    getUserIdentityFromJwt (fun _ => sampleDigest) "e30.eyJlbWFpbCI6IiEhISJ9" 0 =
      .ok ⟨normalizeUserKey (fun _ => sampleDigest) "!!!",
        emailOf (.obj [("email", .str "!!!")]), upnOf (.obj [("email", .str "!!!")]),
        subjectOf (.obj [("email", .str "!!!")]), "!!!"⟩
    ∧ normalizeUserKey (fun _ => sampleDigest) "!!!" =
        "user" ++ "-" ++ (⟨((fun _ => sampleDigest) "!!!").data.take 8⟩ : String) := by
  constructor
  · exact (c6_user_identity_amended (fun _ => sampleDigest) "e30.eyJlbWFpbCI6IiEhISJ9" 0
      (.obj [("email", .str "!!!")]) decodePayload_c6 rfl).2.1 "!!!" rfl
  · exact (c6_user_identity_amended (fun _ => sampleDigest) "e30.eyJlbWFpbCI6IiEhISJ9" 0
      (.obj [("email", .str "!!!")]) decodePayload_c6 rfl).2.2.2 "!!!" rfl
